import Mathlib

/-!
Shallow embedding of the LivrariaAoros catalog manager (src/Livraria/app.py)
and verification of its specification claims.

Modelling conventions:
* The SQLite table `livros` is a list of `Livro` records kept in insertion
  order; `id` is the AUTOINCREMENT key, modelled by the `nextId` counter of
  the store state.  `SELECT ... ORDER BY id` is modelled by an explicit
  stable insertion sort on ids.
* The backup directory is a list of `Archive` values (a directory is
  unordered; the list is kept newest-created-first).  An archive's `name` is
  the second-granularity timestamp embedded in its file name
  (`backup_livraria_<timestamp>.db`); its `mtime` is the st_mtime stamped by
  `shutil.copy2`, which copies the metadata of the source file, i.e. the
  modification time of the live database file at copy time (field `dbMtime`
  of the state).  `shutil.copy2` to an existing path overwrites that file.
* Every operation receives the current wall-clock second `now` as an
  explicit argument (`datetime.now` / file-system timestamps), and the
  current year `cy` (`datetime.now().year`) where validation needs it.
* Python `float` values are modelled as exact rationals (`Rat`); `int(s)`
  and `float(s)` are modelled on plain ASCII decimal notation (optional
  sign, digits, decimal point, exponent); exotic spellings (underscores,
  inf/nan, unicode digits, surrounding whitespace inside the validators'
  input) are outside the model.  The interactive shell pre-strips its
  input, and the CSV exporter only produces plain decimal notation.
* A CSV file is modelled after `csv.DictReader`: an optional list of rows,
  each row an association list from header names to cell strings; `none`
  models a missing file.  The live store file is assumed to exist (the
  `init_db` + `time.sleep` branch of `backup_db` concerns only the very
  first run), and best-effort archive deletions in `prune_old_backups` are
  modelled as succeeding.
-/

/-- Python `str.strip()`: drop leading and trailing whitespace. -/
def pyStrip (s : String) : String :=
  ⟨((s.data.dropWhile Char.isWhitespace).reverse.dropWhile Char.isWhitespace).reverse⟩

/-- Numeric value of a decimal digit character. -/
def digitVal (c : Char) : Nat := c.toNat - 48

/-- Value of a big-endian list of decimal digit characters. -/
def digitsVal (ds : List Char) : Nat := ds.foldl (fun a c => a * 10 + digitVal c) 0

/-- All characters are decimal digits. -/
def allDigits (ds : List Char) : Bool := ds.all Char.isDigit

/-- Python `int(text)` on an already stripped character list: optional sign
followed by a nonempty digit string. -/
def pyIntCore (cs : List Char) : Option Int :=
  match cs with
  | [] => none
  | c :: rest =>
    if c = '-' then
      if rest ≠ [] ∧ allDigits rest then some (-(digitsVal rest : Int)) else none
    else if c = '+' then
      if rest ≠ [] ∧ allDigits rest then some ((digitsVal rest : Int)) else none
    else
      if allDigits (c :: rest) then some ((digitsVal (c :: rest) : Int)) else none

/-- Python `int(text)` (decimal notation). -/
def pyInt (s : String) : Option Int := pyIntCore (pyStrip s).data

/-- Strip an optional leading sign; return whether it was a minus. -/
def splitSign (cs : List Char) : Bool × List Char :=
  match cs with
  | [] => (false, [])
  | c :: rest =>
    if c = '-' then (true, rest)
    else if c = '+' then (false, rest)
    else (false, c :: rest)

/-- Parse the mantissa of a float literal: `digits [. digits]` with at least
one digit overall; returns a scaled-decimal pair `(m, k)` standing for the
value `m / 10 ^ k`, and the unconsumed remainder. -/
def parseMantissa (cs : List Char) : Option ((Nat × Nat) × List Char) :=
  let intDigits := cs.takeWhile Char.isDigit
  let rest1 := cs.dropWhile Char.isDigit
  match rest1 with
  | '.' :: rest2 =>
    let fracDigits := rest2.takeWhile Char.isDigit
    let rest3 := rest2.dropWhile Char.isDigit
    if intDigits = [] ∧ fracDigits = [] then none
    else some ((digitsVal intDigits * 10 ^ fracDigits.length + digitsVal fracDigits, fracDigits.length), rest3)
  | _ => if intDigits = [] then none else some ((digitsVal intDigits, 0), rest1)

/-- Parse an optional exponent part `(e|E) [sign] digits`; the remainder must
be fully consumed. -/
def parseExpPart (cs : List Char) : Option Int :=
  match cs with
  | [] => some 0
  | c :: rest =>
    if c = 'e' ∨ c = 'E' then
      let sd := splitSign rest
      if sd.2 ≠ [] ∧ allDigits sd.2 then
        some (if sd.1 then -(digitsVal sd.2 : Int) else (digitsVal sd.2 : Int))
      else none
    else none

/-- Python `float(text)` on plain decimal notation, as an exact rational:
the parsed value is `sign * m * 10 ^ (e - k)` for mantissa `m / 10 ^ k` and
exponent `e`, assembled with integer arithmetic only. -/
def pyFloat (s : String) : Option Rat :=
  let sd := splitSign (pyStrip s).data
  match parseMantissa sd.2 with
  | none => none
  | some mr =>
    match parseExpPart mr.2 with
    | none => none
    | some e =>
      let num : Int := if sd.1 then -(mr.1.1 : Int) else (mr.1.1 : Int)
      let k : Int := (mr.1.2 : Int) - e
      some (if 0 ≤ k then mkRat num (10 ^ k.toNat) else mkRat (num * 10 ^ (-k).toNat) 1)

/-- `validar_ano`: accept an integer year in `[1000, current_year + 1]`,
otherwise `None`; never raises. -/
def validar_ano (cy : Int) (ano_str : String) : Option Int :=
  match pyInt ano_str with
  | some ano => if 1000 ≤ ano ∧ ano ≤ cy + 1 then some ano else none
  | none => none

/-- `validar_preco`: accept a real number `>= 0`, otherwise `None`; never
raises. -/
def validar_preco (preco_str : String) : Option Rat :=
  match pyFloat preco_str with
  | some preco => if 0 ≤ preco then some preco else none
  | none => none

/-- Decimal digit character for a value below ten. -/
def digitChar10 : Nat → Char
  | 0 => '0' | 1 => '1' | 2 => '2' | 3 => '3' | 4 => '4'
  | 5 => '5' | 6 => '6' | 7 => '7' | 8 => '8' | _ => '9'

/-- Little-endian decimal digit characters of `n`, with explicit fuel
(`fuel > n` suffices). -/
def natDigitsRevFuel : Nat → Nat → List Char
  | 0, _ => []
  | fuel + 1, n => if n = 0 then [] else digitChar10 (n % 10) :: natDigitsRevFuel fuel (n / 10)

/-- Python `str` of a natural number. -/
def renderNat (n : Nat) : List Char :=
  if n = 0 then ['0'] else (natDigitsRevFuel (n + 1) n).reverse

/-- Python `str` of an integer. -/
def renderInt (i : Int) : String :=
  if i < 0 then ⟨'-' :: renderNat i.natAbs⟩ else ⟨renderNat i.natAbs⟩

/-- Smallest exponent `k` with `d ∣ 10 ^ k`, when one exists (it does exactly
when `d` factors over 2 and 5 — in particular for every Python float's
denominator). -/
def decExp (d : Nat) : Option Nat := (List.range (d + 1)).find? (fun k => decide (d ∣ 10 ^ k))

/-- Python `str` of a nonnegative float, modelled on exact decimals: the
shortest decimal expansion `intpart.fracpart` of the rational. -/
def renderRat (p : Rat) : String :=
  match decExp p.den with
  | none => "0.0"
  | some k =>
    let n := p.num.toNat * 10 ^ k / p.den
    let fracDigits := renderNat (n % 10 ^ k)
    ⟨renderNat (n / 10 ^ k) ++ '.' :: (List.replicate (k - fracDigits.length) '0' ++ fracDigits)⟩

/-- One row of the `livros` table: `id` is the AUTOINCREMENT key, `titulo`
and `autor` are TEXT NOT NULL, `ano_publicacao` and `preco` are nullable. -/
structure Livro where
  id : Nat
  titulo : String
  autor : String
  ano : Option Int
  preco : Option Rat
  deriving DecidableEq

/-- One backup archive file `backup_livraria_<name>.db` in the backup
directory: `name` is the second-granularity timestamp in the file name,
`mtime` the st_mtime copied by `shutil.copy2` from the live database file,
and `livros` the copied table contents. -/
structure Archive where
  name : Nat
  mtime : Nat
  livros : List Livro
  deriving DecidableEq

/-- The file-system state the program manipulates: the live database file
(`livros` rows, the AUTOINCREMENT counter, and the file's mtime) and the
backup directory, kept newest-created-first. -/
structure DBState where
  livros : List Livro
  nextId : Nat
  dbMtime : Nat
  backups : List Archive
  deriving DecidableEq

/-- `MAX_BACKUPS_TO_KEEP`. -/
def MAX_BACKUPS_TO_KEEP : Nat := 5

/-- `shutil.copy2(DB_FILE, backup_path)`: writing to an existing path
overwrites that file, otherwise a new directory entry appears. -/
def copyArchive (bs : List Archive) (a : Archive) : List Archive :=
  if bs.any (fun b => b.name == a.name) then
    bs.map (fun b => if b.name == a.name then a else b)
  else a :: bs

/-- Stable insertion step of Python `sorted(..., reverse=True)` on st_mtime. -/
def insertDesc (a : Archive) : List Archive → List Archive
  | [] => [a]
  | b :: bs => if b.mtime ≤ a.mtime then a :: b :: bs else b :: insertDesc a bs

/-- Python `sorted(backups, key=st_mtime, reverse=True)` (a stable sort). -/
def sortByMtimeDesc : List Archive → List Archive
  | [] => []
  | a :: as => insertDesc a (sortByMtimeDesc as)

/-- `prune_old_backups`: sort the archives by modification time descending
and unlink every archive beyond the `MAX_BACKUPS_TO_KEEP`-th (deletion is by
file name; failures are swallowed, modelled as all deletions succeeding). -/
def prune_old_backups (bs : List Archive) : List Archive :=
  let toDelete := (sortByMtimeDesc bs).drop MAX_BACKUPS_TO_KEEP
  bs.filter (fun b => !(toDelete.any (fun d => d.name == b.name)))

/-- `backup_db`: copy the live database file to
`backup_livraria_<now>.db` (the copy carries the live file's mtime), then
prune.  The live store is assumed to exist already. -/
def backup_db (now : Nat) (s : DBState) : DBState :=
  { s with backups := prune_old_backups (copyArchive s.backups ⟨now, s.dbMtime, s.livros⟩) }

/-- The most recent archive in the backup directory: greatest st_mtime,
ties broken towards the most recently created. -/
def latestBackup (s : DBState) : Option Archive := (sortByMtimeDesc s.backups).head?

/-- `adicionar_livro`: backup first, then INSERT with trimmed title/author;
returns `lastrowid` and the new state. -/
def adicionar_livro (now : Nat) (titulo autor : String) (ano_publicacao : Option Int)
    (preco : Option Rat) (s : DBState) : Nat × DBState :=
  let s1 := backup_db now s
  (s1.nextId,
   { s1 with
     livros := s1.livros ++ [{ id := s1.nextId, titulo := pyStrip titulo,
                               autor := pyStrip autor, ano := ano_publicacao, preco := preco }],
     nextId := s1.nextId + 1,
     dbMtime := now })

/-- Stable insertion step for ordering rows by ascending id. -/
def insertById (l : Livro) : List Livro → List Livro
  | [] => [l]
  | x :: xs => if l.id ≤ x.id then l :: x :: xs else x :: insertById l xs

/-- Rows ordered by ascending id (`ORDER BY id`). -/
def sortById : List Livro → List Livro
  | [] => []
  | x :: xs => insertById x (sortById xs)

/-- `listar_livros`: SELECT all rows ORDER BY id. -/
def listar_livros (s : DBState) : List Livro := sortById s.livros

/-- `atualizar_preco_livro`: a separate SELECT existence check (no backup on
a missing id), then backup, then UPDATE; returns `rowcount > 0`. -/
def atualizar_preco_livro (now : Nat) (livro_id : Nat) (novo_preco : Option Rat)
    (s : DBState) : Bool × DBState :=
  match s.livros.find? (fun l => l.id == livro_id) with
  | none => (false, s)
  | some _ =>
    let s1 := backup_db now s
    (decide (0 < s1.livros.countP (fun l => l.id == livro_id)),
     { s1 with
       livros := s1.livros.map (fun l => if l.id == livro_id then { l with preco := novo_preco } else l),
       dbMtime := now })

/-- `remover_livro`: existence check, then backup, then DELETE; returns
`rowcount > 0`. -/
def remover_livro (now : Nat) (livro_id : Nat) (s : DBState) : Bool × DBState :=
  match s.livros.find? (fun l => l.id == livro_id) with
  | none => (false, s)
  | some _ =>
    let s1 := backup_db now s
    (decide (0 < s1.livros.countP (fun l => l.id == livro_id)),
     { s1 with
       livros := s1.livros.filter (fun l => !(l.id == livro_id)),
       dbMtime := now })

/-- `remover_todos_livros`: COUNT first (no backup when empty), then backup,
then DELETE all; returns `True` on the nonempty path. -/
def remover_todos_livros (now : Nat) (s : DBState) : Bool × DBState :=
  if s.livros.length == 0 then (false, s)
  else
    let s1 := backup_db now s
    (true, { s1 with livros := [], dbMtime := now })

/-- ASCII lowering, as in SQLite's default case-insensitive LIKE. -/
def asciiLower (c : Char) : Char :=
  if 'A' ≤ c ∧ c ≤ 'Z' then Char.ofNat (c.toNat + 32) else c

/-- SQL LIKE pattern matching over character lists (`%` any run, `_` any
single character), on ASCII-lowered input; structural recursion over a fuel
bound (every step shortens pattern or text, so `p.length + t.length + 1`
fuel always suffices and the 0-fuel branch is unreachable). -/
def likeMatchFuel : Nat → List Char → List Char → Bool
  | 0, _, _ => false
  | fuel + 1, p, t =>
    match p, t with
    | [], [] => true
    | [], _ :: _ => false
    | '%' :: ps, [] => likeMatchFuel fuel ps []
    | '%' :: ps, d :: ts => likeMatchFuel fuel ps (d :: ts) || likeMatchFuel fuel ('%' :: ps) ts
    | '_' :: _, [] => false
    | '_' :: ps, _ :: ts => likeMatchFuel fuel ps ts
    | _ :: _, [] => false
    | c :: ps, d :: ts => (asciiLower c == asciiLower d) && likeMatchFuel fuel ps ts

/-- SQL LIKE pattern matching with sufficient fuel. -/
def likeMatch (p t : List Char) : Bool := likeMatchFuel (p.length + t.length + 1) p t

/-- SQLite `text LIKE pattern` (ASCII case-insensitive). -/
def sqlLike (pattern text : String) : Bool :=
  likeMatch (pattern.data.map asciiLower) (text.data.map asciiLower)

/-- `buscar_por_autor`: rows whose author matches `%query.strip()%`,
ordered by id. -/
def buscar_por_autor (autor_query : String) (s : DBState) : List Livro :=
  sortById (s.livros.filter (fun l => sqlLike ("%" ++ pyStrip autor_query ++ "%") l.autor))

/-- One `csv.DictReader` row: header name to cell text. -/
abbrev CsvRow := List (String × String)

/-- Python `r.get(k1) or r.get(k2) or ""`: first truthy (present and
nonempty) value, else the empty string. -/
def getCol (r : CsvRow) (k1 k2 : String) : String :=
  let v1 := (r.lookup k1).getD ""
  if v1 = "" then (r.lookup k2).getD "" else v1

/-- The record built from one CSV row in the `importar_de_csv` loop body:
either header-name convention per field, title/author trimmed, year/price
validated when the raw cell is nonempty and stored as NULL otherwise. -/
def rowLivro (cy : Int) (newId : Nat) (r : CsvRow) : Livro :=
  let titulo := getCol r "titulo" "title"
  let autor := getCol r "autor" "author"
  let ano_raw := getCol r "ano_publicacao" "year"
  let preco_raw := getCol r "preco" "price"
  { id := newId, titulo := pyStrip titulo, autor := pyStrip autor,
    ano := if ano_raw = "" then none else validar_ano cy ano_raw,
    preco := if preco_raw = "" then none else validar_preco preco_raw }

/-- The records inserted for a list of CSV rows starting at a given
AUTOINCREMENT value. -/
def insertedRecords (cy : Int) (startId : Nat) : List CsvRow → List Livro
  | [] => []
  | r :: rest => rowLivro cy startId r :: insertedRecords cy (startId + 1) rest

/-- `importar_de_csv`: missing file raises FileNotFoundError; all rows are
read before any write; zero data rows return 0 with no backup; otherwise one
backup, then one INSERT per row, returning the number inserted. -/
def importar_de_csv (now : Nat) (cy : Int) (file : Option (List CsvRow))
    (s : DBState) : Except String (Nat × DBState) :=
  match file with
  | none => .error "Arquivo nao encontrado"
  | some rows =>
    match rows with
    | [] => .ok (0, s)
    | _ :: _ =>
      let s1 := backup_db now s
      let s2 := rows.foldl
        (fun st r => { st with livros := st.livros ++ [rowLivro cy st.nextId r],
                               nextId := st.nextId + 1 }) s1
      .ok (rows.length, { s2 with dbMtime := now })

/-- The CSV row written by `exportar_para_csv` for one record: fixed header
names, blank cells for NULL year/price. -/
def exportRow (l : Livro) : CsvRow :=
  [("titulo", l.titulo), ("autor", l.autor),
   ("ano_publicacao", match l.ano with | none => "" | some y => renderInt y),
   ("preco", match l.preco with | none => "" | some p => renderRat p)]

/-- `exportar_para_csv`: the full catalog ordered by id, one row per book. -/
def exportar_para_csv (s : DBState) : List CsvRow := (listar_livros s).map exportRow

/-- The (title, author, year, price) content of a record, ignoring its id. -/
def tupla (l : Livro) : String × String × Option Int × Option Rat :=
  (l.titulo, l.autor, l.ano, l.preco)

/-- A mutating catalog operation, as dispatched by the interactive shell. -/
inductive Op where
  | adicionar (titulo autor : String) (ano : Option Int) (preco : Option Rat)
  | atualizarPreco (livro_id : Nat) (novo_preco : Option Rat)
  | remover (livro_id : Nat)
  | removerTodos
  | fromCsv (file : Option (List CsvRow))

/-- Run one mutating operation, keeping only the state. -/
def applyOp (cy : Int) (now : Nat) (op : Op) (s : DBState) : DBState :=
  match op with
  | .adicionar ti au an pr => (adicionar_livro now ti au an pr s).2
  | .atualizarPreco i p => (atualizar_preco_livro now i p s).2
  | .remover i => (remover_livro now i s).2
  | .removerTodos => (remover_todos_livros now s).2
  | .fromCsv file =>
    match importar_de_csv now cy file s with
    | .ok r => r.2
    | .error _ => s

/-- Whether an operation actually changes the store (and hence fires a
backup): inserts always do; update/delete only on an existing id; delete-all
only on a nonempty catalog; CSV import only with at least one data row. -/
def Triggers (op : Op) (s : DBState) : Bool :=
  match op with
  | .adicionar _ _ _ _ => true
  | .atualizarPreco i _ => s.livros.any (fun l => l.id == i)
  | .remover i => s.livros.any (fun l => l.id == i)
  | .removerTodos => !s.livros.isEmpty
  | .fromCsv file =>
    match file with
    | none => false
    | some rows => !rows.isEmpty

/-- Run a timed sequence of operations. -/
def runOps (cy : Int) : List (Nat × Op) → DBState → DBState
  | [], s => s
  | top :: rest, s => runOps cy rest (applyOp cy top.1 top.2 s)

/-- A run in which every operation fires a backup and wall-clock time moves
strictly forward between the write of one operation and the next. -/
def GoodRun (cy : Int) : List (Nat × Op) → DBState → Bool
  | [], _ => true
  | top :: rest, s =>
    decide (s.dbMtime < top.1) && Triggers top.2 s && GoodRun cy rest (applyOp cy top.1 top.2 s)

/-- Generic pairwise test along a list (each element against all later
ones). -/
def pairwiseB {α : Type} (p : α → α → Bool) : List α → Bool
  | [] => true
  | a :: rest => rest.all (p a) && pairwiseB p rest

/-- Directory sanity for one more backup at time `now`: no existing archive
already carries the name `now`, archive mtimes do not exceed the live file's
mtime, they descend along the (newest-first) directory list, and file names
are distinct. -/
def freshBackupB (now : Nat) (s : DBState) : Bool :=
  s.backups.all (fun b => !(b.name == now)) &&
  s.backups.all (fun b => decide (b.mtime ≤ s.dbMtime)) &&
  pairwiseB (fun a b => decide (b.mtime ≤ a.mtime)) s.backups &&
  pairwiseB (fun a b => !(a.name == b.name)) s.backups

/-- Invariant of backup directories reachable by backup-firing operation
runs: names and mtimes strictly descend (newest first), every archive
predates the live file's last write, and at most the retention count
survive. -/
def invB (s : DBState) : Bool :=
  pairwiseB (fun a b => decide (b.mtime < a.mtime)) s.backups &&
  pairwiseB (fun a b => decide (b.name < a.name)) s.backups &&
  s.backups.all (fun b => decide (b.name ≤ s.dbMtime)) &&
  s.backups.all (fun b => decide (b.mtime < s.dbMtime)) &&
  decide (s.backups.length ≤ MAX_BACKUPS_TO_KEEP)

/-- Range validity of one record's year and price (§3 of the spec). -/
def rangeOkB (cy : Int) (l : Livro) : Bool :=
  (match l.ano with | none => true | some y => decide (1000 ≤ y) && decide (y ≤ cy + 1)) &&
  (match l.preco with | none => true | some p => decide (0 ≤ p))

/-- Store invariant: ids below the AUTOINCREMENT counter and pairwise
distinct, and every row's year/price absent or in range. -/
def storeInvB (cy : Int) (s : DBState) : Bool :=
  s.livros.all (fun l => decide (l.id < s.nextId)) &&
  pairwiseB (fun a b => !(a.id == b.id)) s.livros &&
  s.livros.all (rangeOkB cy)

/-- Validated inputs for an operation, as the interactive shell guarantees:
year/price of an insertion and the new price of an update come from the
validators (delete, delete-all and CSV import need nothing). -/
def opInputsOkB (cy : Int) (op : Op) : Bool :=
  match op with
  | .adicionar _ _ an pr =>
    (match an with | none => true | some y => decide (1000 ≤ y) && decide (y ≤ cy + 1)) &&
    (match pr with | none => true | some x => decide (0 ≤ x))
  | .atualizarPreco _ p => (match p with | none => true | some x => decide (0 ≤ x))
  | .remover _ => true
  | .removerTodos => true
  | .fromCsv _ => true

/-- Non-empty title and author for every row. -/
def titlesOkB (s : DBState) : Bool :=
  s.livros.all (fun l => !(l.titulo == "") && !(l.autor == ""))

/-- A record the exporter can round-trip: title/author already trimmed (as
every write path leaves them), year in the validator's range, price
nonnegative with a finite decimal expansion (every Python float has one). -/
def exportableLivro (cy : Int) (l : Livro) : Bool :=
  (pyStrip l.titulo == l.titulo) && (pyStrip l.autor == l.autor) &&
  (match l.ano with | none => true | some y => decide (1000 ≤ y) && decide (y ≤ cy + 1)) &&
  (match l.preco with | none => true | some p => decide (0 ≤ p) && (decExp p.den).isSome)

/-- Concrete record used by the witnesses. -/
def livroEx : Livro := ⟨1, "Dom Casmurro", "Machado de Assis", some 1899, some (mkRat 30 1)⟩

/-- Concrete one-book state used by the witnesses. -/
def sEx : DBState := ⟨[livroEx], 2, 10, []⟩

/-- Concrete empty state used by the witnesses. -/
def sEmpty : DBState := ⟨[], 1, 10, []⟩

/-- Concrete CSV rows used by the witnesses: both header conventions, a
price needing trimming-independent parsing, an unparseable year, a blank
price. -/
def rowsEx : List CsvRow :=
  [[("titulo", "Iracema"), ("autor", "Jose de Alencar"), ("ano_publicacao", "1865"), ("preco", "25.5")],
   [("title", "  O Guarani "), ("author", "Jose de Alencar"), ("year", "abc"), ("price", "")]]

/-- Concrete five-step run of backup-firing operations at distinct seconds. -/
def opsEx : List (Nat × Op) :=
  [(11, Op.adicionar "a" "b" none none), (12, Op.adicionar "c" "d" none none),
   (13, Op.atualizarPreco 1 (some (mkRat 9 1))), (14, Op.remover 2),
   (15, Op.adicionar "e" "f" none none), (16, Op.removerTodos)]

theorem all_take {α : Type} (p : α → Bool) (l : List α) (n : Nat)
    (h : l.all p = true) : (l.take n).all p = true := by
  rw [List.all_eq_true] at h ⊢
  exact fun a ha => h a (List.mem_of_mem_take ha)

theorem pairwiseB_cons {α : Type} (p : α → α → Bool) (a : α) (l : List α) :
    pairwiseB p (a :: l) = (l.all (p a) && pairwiseB p l) := rfl

theorem pairwiseB_take {α : Type} (p : α → α → Bool) (l : List α) (n : Nat)
    (h : pairwiseB p l = true) : pairwiseB p (l.take n) = true := by
  induction l generalizing n with
  | nil => simp [pairwiseB]
  | cons a rest ih =>
    cases n with
    | zero => rfl
    | succ n =>
      rw [List.take_succ_cons, pairwiseB_cons, Bool.and_eq_true]
      rw [pairwiseB_cons, Bool.and_eq_true] at h
      exact ⟨all_take _ _ _ h.1, ih n h.2⟩

theorem pairwiseB_append_cross {α : Type} (p : α → α → Bool) (l1 l2 : List α)
    (h : pairwiseB p (l1 ++ l2) = true) : ∀ a ∈ l1, ∀ b ∈ l2, p a b = true := by
  induction l1 with
  | nil => simp
  | cons x xs ih =>
    rw [List.cons_append, pairwiseB_cons, Bool.and_eq_true, List.all_eq_true] at h
    intro a ha b hb
    rcases List.mem_cons.mp ha with rfl | ha'
    · exact h.1 b (List.mem_append_right _ hb)
    · exact ih h.2 a ha' b hb

theorem insertDesc_top (a : Archive) (l : List Archive)
    (h : l.all (fun b => decide (b.mtime ≤ a.mtime)) = true) : insertDesc a l = a :: l := by
  cases l with
  | nil => rfl
  | cons b bs =>
    rw [List.all_cons, Bool.and_eq_true, decide_eq_true_eq] at h
    simp [insertDesc, h.1]

theorem sortByMtimeDesc_sorted_id (l : List Archive)
    (h : pairwiseB (fun x y => decide (y.mtime ≤ x.mtime)) l = true) : sortByMtimeDesc l = l := by
  induction l with
  | nil => rfl
  | cons a rest ih =>
    rw [pairwiseB_cons, Bool.and_eq_true] at h
    rw [sortByMtimeDesc, ih h.2, insertDesc_top a rest h.1]

theorem filter_drop_names (t d : List Archive)
    (hcross : ∀ a ∈ t, ∀ b ∈ d, (a.name == b.name) = false) :
    (t ++ d).filter (fun b => !(d.any (fun x => x.name == b.name))) = t := by
  rw [List.filter_append]
  have h1 : t.filter (fun b => !(d.any (fun x => x.name == b.name))) = t := by
    refine List.filter_eq_self.mpr (fun a ha => ?_)
    simp only [Bool.not_eq_true', List.any_eq_false]
    intro x hx
    have := hcross a ha x hx
    rw [beq_eq_false_iff_ne] at this
    simp only [beq_iff_eq]
    exact fun hxe => this hxe.symm
  have h2 : d.filter (fun b => !(d.any (fun x => x.name == b.name))) = [] := by
    refine List.filter_eq_nil_iff.mpr (fun a ha => ?_)
    have : (d.any fun x => x.name == a.name) = true := List.any_eq_true.mpr ⟨a, ha, by simp⟩
    simp [this]
  rw [h1, h2, List.append_nil]

theorem prune_sorted (l : List Archive)
    (hs : pairwiseB (fun x y => decide (y.mtime ≤ x.mtime)) l = true)
    (hn : pairwiseB (fun x y => !(x.name == y.name)) l = true) :
    prune_old_backups l = l.take MAX_BACKUPS_TO_KEEP := by
  have hcross : ∀ a ∈ l.take MAX_BACKUPS_TO_KEEP, ∀ b ∈ l.drop MAX_BACKUPS_TO_KEEP,
      (a.name == b.name) = false := by
    intro a ha b hb
    have := pairwiseB_append_cross _ _ _
      (by rw [List.take_append_drop]; exact hn) a ha b hb
    simpa using this
  have key := filter_drop_names (l.take MAX_BACKUPS_TO_KEEP) (l.drop MAX_BACKUPS_TO_KEEP) hcross
  rw [List.take_append_drop] at key
  unfold prune_old_backups
  rw [sortByMtimeDesc_sorted_id l hs]
  exact key

theorem freshBackupB_parts (now : Nat) (s : DBState) (h : freshBackupB now s = true) :
    s.backups.all (fun b => !(b.name == now)) = true ∧
    s.backups.all (fun b => decide (b.mtime ≤ s.dbMtime)) = true ∧
    pairwiseB (fun a b => decide (b.mtime ≤ a.mtime)) s.backups = true ∧
    pairwiseB (fun a b => !(a.name == b.name)) s.backups = true := by
  rw [freshBackupB, Bool.and_eq_true, Bool.and_eq_true, Bool.and_eq_true] at h
  exact ⟨h.1.1.1, h.1.1.2, h.1.2, h.2⟩

theorem backup_db_backups (now : Nat) (s : DBState) (h : freshBackupB now s = true) :
    (backup_db now s).backups =
      ((⟨now, s.dbMtime, s.livros⟩ : Archive) :: s.backups).take MAX_BACKUPS_TO_KEEP := by
  obtain ⟨h1, h2, h3, h4⟩ := freshBackupB_parts now s h
  have hany : (s.backups.any (fun b => b.name == now)) = false := by
    rw [List.any_eq_false]
    intro b hb
    have := List.all_eq_true.mp h1 b hb
    simpa using this
  have hcopy : copyArchive s.backups ⟨now, s.dbMtime, s.livros⟩ =
      (⟨now, s.dbMtime, s.livros⟩ : Archive) :: s.backups := by
    rw [copyArchive, hany]
    rfl
  have hs : pairwiseB (fun x y => decide (y.mtime ≤ x.mtime))
      ((⟨now, s.dbMtime, s.livros⟩ : Archive) :: s.backups) = true := by
    rw [pairwiseB_cons, Bool.and_eq_true]
    exact ⟨h2, h3⟩
  have hn : pairwiseB (fun x y => !(x.name == y.name))
      ((⟨now, s.dbMtime, s.livros⟩ : Archive) :: s.backups) = true := by
    rw [pairwiseB_cons, Bool.and_eq_true]
    refine ⟨?_, h4⟩
    rw [List.all_eq_true]
    intro b hb
    have := List.all_eq_true.mp h1 b hb
    simp only [Bool.not_eq_true', beq_eq_false_iff_ne] at this ⊢
    exact fun he => this he.symm
  show prune_old_backups (copyArchive s.backups ⟨now, s.dbMtime, s.livros⟩) = _
  rw [hcopy, prune_sorted _ hs hn]

theorem latest_of_take (now : Nat) (s : DBState) (h : freshBackupB now s = true) :
    (sortByMtimeDesc (((⟨now, s.dbMtime, s.livros⟩ : Archive) :: s.backups).take
      MAX_BACKUPS_TO_KEEP)).head? = some (⟨now, s.dbMtime, s.livros⟩ : Archive) := by
  obtain ⟨_, h2, h3, _⟩ := freshBackupB_parts now s h
  have htake : ((⟨now, s.dbMtime, s.livros⟩ : Archive) :: s.backups).take MAX_BACKUPS_TO_KEEP =
      (⟨now, s.dbMtime, s.livros⟩ : Archive) :: s.backups.take 4 := by
    show ((⟨now, s.dbMtime, s.livros⟩ : Archive) :: s.backups).take (4 + 1) = _
    rw [List.take_succ_cons]
  rw [htake, sortByMtimeDesc_sorted_id, List.head?_cons]
  rw [pairwiseB_cons, Bool.and_eq_true]
  exact ⟨all_take _ _ _ h2, pairwiseB_take _ _ _ h3⟩

theorem foldl_insert (cy : Int) : ∀ (rows : List CsvRow) (st : DBState),
    rows.foldl (fun st r =>
        { st with
          livros := st.livros ++ [rowLivro cy st.nextId r],
          nextId := st.nextId + 1 }) st =
      ⟨st.livros ++ insertedRecords cy st.nextId rows, st.nextId + rows.length,
       st.dbMtime, st.backups⟩ := by
  intro rows
  induction rows with
  | nil => intro st; cases st; simp [insertedRecords]
  | cons r rest ih =>
    intro st
    rw [List.foldl_cons, ih]
    cases st
    simp only [insertedRecords, List.length_cons, DBState.mk.injEq]
    refine ⟨by simp, by omega, by simp⟩

theorem importar_spec (now : Nat) (cy : Int) (rows : List CsvRow) (s : DBState)
    (h : rows ≠ []) :
    importar_de_csv now cy (some rows) s =
      .ok (rows.length, ⟨s.livros ++ insertedRecords cy s.nextId rows,
                         s.nextId + rows.length, now, (backup_db now s).backups⟩) := by
  cases rows with
  | nil => exact absurd rfl h
  | cons r rest =>
    rw [show importar_de_csv now cy (some (r :: rest)) s =
        Except.ok ((r :: rest).length,
          { (r :: rest).foldl (fun st r =>
              { st with
                livros := st.livros ++ [rowLivro cy st.nextId r],
                nextId := st.nextId + 1 }) (backup_db now s) with
            dbMtime := now }) from rfl,
      foldl_insert]
    rfl

theorem adicionar_state (now : Nat) (ti au : String) (an : Option Int) (pr : Option Rat)
    (s : DBState) :
    (adicionar_livro now ti au an pr s).2 =
      ⟨s.livros ++ [⟨s.nextId, pyStrip ti, pyStrip au, an, pr⟩], s.nextId + 1, now,
       (backup_db now s).backups⟩ := rfl

theorem atualizar_missing (now i : Nat) (p : Option Rat) (s : DBState)
    (h : ∀ l ∈ s.livros, l.id ≠ i) :
    atualizar_preco_livro now i p s = (false, s) := by
  have hf : s.livros.find? (fun l => l.id == i) = none :=
    List.find?_eq_none.mpr (fun x hx => by simpa using h x hx)
  unfold atualizar_preco_livro
  rw [hf]

theorem remover_missing (now i : Nat) (s : DBState)
    (h : ∀ l ∈ s.livros, l.id ≠ i) :
    remover_livro now i s = (false, s) := by
  have hf : s.livros.find? (fun l => l.id == i) = none :=
    List.find?_eq_none.mpr (fun x hx => by simpa using h x hx)
  unfold remover_livro
  rw [hf]

theorem atualizar_found (now i : Nat) (p : Option Rat) (s : DBState)
    (h : s.livros.any (fun l => l.id == i) = true) :
    atualizar_preco_livro now i p s =
      (decide (0 < s.livros.countP (fun l => l.id == i)),
       ⟨s.livros.map (fun l => if l.id == i then { l with preco := p } else l),
        s.nextId, now, (backup_db now s).backups⟩) := by
  obtain ⟨x, hx, hpx⟩ := List.any_eq_true.mp h
  cases hf : s.livros.find? (fun l => l.id == i) with
  | none => exact absurd hpx (by simpa using List.find?_eq_none.mp hf x hx)
  | some y =>
    unfold atualizar_preco_livro
    rw [hf]
    rfl

theorem remover_found (now i : Nat) (s : DBState)
    (h : s.livros.any (fun l => l.id == i) = true) :
    remover_livro now i s =
      (decide (0 < s.livros.countP (fun l => l.id == i)),
       ⟨s.livros.filter (fun l => !(l.id == i)), s.nextId, now,
        (backup_db now s).backups⟩) := by
  obtain ⟨x, hx, hpx⟩ := List.any_eq_true.mp h
  cases hf : s.livros.find? (fun l => l.id == i) with
  | none => exact absurd hpx (by simpa using List.find?_eq_none.mp hf x hx)
  | some y =>
    unfold remover_livro
    rw [hf]
    rfl

theorem removerTodos_empty (now : Nat) (s : DBState) (h : s.livros = []) :
    remover_todos_livros now s = (false, s) := by
  unfold remover_todos_livros
  rw [h]
  rfl

theorem removerTodos_nonempty (now : Nat) (s : DBState) (h : s.livros ≠ []) :
    remover_todos_livros now s =
      (true, ⟨[], s.nextId, now, (backup_db now s).backups⟩) := by
  unfold remover_todos_livros
  have : (s.livros.length == 0) = false := by
    simp only [beq_eq_false_iff_ne, ne_eq, List.length_eq_zero]
    exact h
  rw [this]
  rfl

theorem applyOp_triggered (cy : Int) (now : Nat) (op : Op) (s : DBState)
    (h : Triggers op s = true) :
    (applyOp cy now op s).backups = (backup_db now s).backups ∧
    (applyOp cy now op s).dbMtime = now := by
  cases op with
  | adicionar ti au an pr => rw [applyOp, adicionar_state]; exact ⟨rfl, rfl⟩
  | atualizarPreco i p =>
    rw [applyOp, atualizar_found now i p s (by simpa [Triggers] using h)]
    exact ⟨rfl, rfl⟩
  | remover i =>
    rw [applyOp, remover_found now i s (by simpa [Triggers] using h)]
    exact ⟨rfl, rfl⟩
  | removerTodos =>
    rw [applyOp, removerTodos_nonempty now s (by simpa [Triggers, List.isEmpty_iff] using h)]
    exact ⟨rfl, rfl⟩
  | fromCsv file =>
    cases file with
    | none => exact absurd h (by simp [Triggers])
    | some rows =>
      have hrows : rows ≠ [] := by simpa [Triggers, List.isEmpty_iff] using h
      rw [applyOp, importar_spec now cy rows s hrows]
      exact ⟨rfl, rfl⟩

theorem pairwiseB_imp {α : Type} (p q : α → α → Bool) (l : List α)
    (hpq : ∀ a b, p a b = true → q a b = true) (h : pairwiseB p l = true) :
    pairwiseB q l = true := by
  induction l with
  | nil => rfl
  | cons a rest ih =>
    rw [pairwiseB_cons, Bool.and_eq_true] at h ⊢
    refine ⟨List.all_eq_true.mpr (fun b hb => hpq _ _ (List.all_eq_true.mp h.1 b hb)), ih h.2⟩

theorem invB_parts (s : DBState) (h : invB s = true) :
    pairwiseB (fun a b => decide (b.mtime < a.mtime)) s.backups = true ∧
    pairwiseB (fun a b => decide (b.name < a.name)) s.backups = true ∧
    s.backups.all (fun b => decide (b.name ≤ s.dbMtime)) = true ∧
    s.backups.all (fun b => decide (b.mtime < s.dbMtime)) = true ∧
    s.backups.length ≤ MAX_BACKUPS_TO_KEEP := by
  rw [invB, Bool.and_eq_true, Bool.and_eq_true, Bool.and_eq_true, Bool.and_eq_true] at h
  exact ⟨h.1.1.1.1, h.1.1.1.2, h.1.1.2, h.1.2, of_decide_eq_true h.2⟩

theorem invB_fresh (now : Nat) (s : DBState) (hi : invB s = true)
    (ht : s.dbMtime < now) : freshBackupB now s = true := by
  obtain ⟨h1, h2, h3, h4, _⟩ := invB_parts s hi
  rw [freshBackupB, Bool.and_eq_true, Bool.and_eq_true, Bool.and_eq_true]
  refine ⟨⟨⟨?_, ?_⟩, ?_⟩, ?_⟩
  · rw [List.all_eq_true]
    intro b hb
    have := of_decide_eq_true (List.all_eq_true.mp h3 b hb)
    simp only [Bool.not_eq_true', beq_eq_false_iff_ne]
    omega
  · rw [List.all_eq_true]
    intro b hb
    have := of_decide_eq_true (List.all_eq_true.mp h4 b hb)
    simp only [decide_eq_true_eq]
    omega
  · exact pairwiseB_imp _ _ _ (fun a b hab => by
      simp only [decide_eq_true_eq] at hab ⊢; omega) h1
  · exact pairwiseB_imp _ _ _ (fun a b hab => by
      simp only [decide_eq_true_eq] at hab
      simp only [Bool.not_eq_true', beq_eq_false_iff_ne]
      omega) h2

theorem step_invB (cy : Int) (t : Nat) (op : Op) (s : DBState)
    (hi : invB s = true) (ht : s.dbMtime < t) (htr : Triggers op s = true) :
    (applyOp cy t op s).backups =
      ((⟨t, s.dbMtime, s.livros⟩ : Archive) :: s.backups).take MAX_BACKUPS_TO_KEEP ∧
    (applyOp cy t op s).dbMtime = t ∧
    invB (applyOp cy t op s) = true := by
  obtain ⟨h1, h2, h3, h4, h5⟩ := invB_parts s hi
  have hf := invB_fresh t s hi ht
  obtain ⟨hb, hd⟩ := applyOp_triggered cy t op s htr
  have hb' : (applyOp cy t op s).backups =
      ((⟨t, s.dbMtime, s.livros⟩ : Archive) :: s.backups).take MAX_BACKUPS_TO_KEEP :=
    hb.trans (backup_db_backups t s hf)
  refine ⟨hb', hd, ?_⟩
  rw [invB, hb', hd, Bool.and_eq_true, Bool.and_eq_true, Bool.and_eq_true, Bool.and_eq_true]
  refine ⟨⟨⟨⟨?_, ?_⟩, ?_⟩, ?_⟩, ?_⟩
  · refine pairwiseB_take _ _ _ ?_
    rw [pairwiseB_cons, Bool.and_eq_true]
    refine ⟨List.all_eq_true.mpr (fun b hb2 => ?_), h1⟩
    have := of_decide_eq_true (List.all_eq_true.mp h4 b hb2)
    simp only [decide_eq_true_eq]
    omega
  · refine pairwiseB_take _ _ _ ?_
    rw [pairwiseB_cons, Bool.and_eq_true]
    refine ⟨List.all_eq_true.mpr (fun b hb2 => ?_), h2⟩
    have := of_decide_eq_true (List.all_eq_true.mp h3 b hb2)
    simp only [decide_eq_true_eq]
    omega
  · refine all_take _ _ _ ?_
    rw [List.all_cons, Bool.and_eq_true]
    refine ⟨by simp, List.all_eq_true.mpr (fun b hb2 => ?_)⟩
    have := of_decide_eq_true (List.all_eq_true.mp h3 b hb2)
    simp only [decide_eq_true_eq]
    omega
  · refine all_take _ _ _ ?_
    rw [List.all_cons, Bool.and_eq_true]
    refine ⟨by simpa using ht, List.all_eq_true.mpr (fun b hb2 => ?_)⟩
    have := of_decide_eq_true (List.all_eq_true.mp h4 b hb2)
    simp only [decide_eq_true_eq]
    omega
  · simp [List.length_take]

theorem take_append_take {α : Type} (n : Nat) (x y : List α) :
    (x ++ y.take n).take n = (x ++ y).take n := by
  rw [List.take_append_eq_append_take, List.take_append_eq_append_take, List.take_take]
  congr 1
  rw [Nat.min_eq_left (Nat.sub_le n x.length)]

theorem runOps_names (cy : Int) : ∀ (ops : List (Nat × Op)) (s : DBState),
    GoodRun cy ops s = true → invB s = true →
    invB (runOps cy ops s) = true ∧
    (runOps cy ops s).backups.map (fun b => b.name) =
      ((ops.map Prod.fst).reverse ++ s.backups.map (fun b => b.name)).take
        MAX_BACKUPS_TO_KEEP := by
  intro ops
  induction ops with
  | nil =>
    intro s hg hi
    refine ⟨hi, ?_⟩
    rw [List.map_nil, List.reverse_nil, List.nil_append, runOps,
      List.take_of_length_le (by simpa using (invB_parts s hi).2.2.2.2)]
  | cons top rest ih =>
    intro s hg hi
    rw [GoodRun, Bool.and_eq_true, Bool.and_eq_true] at hg
    obtain ⟨⟨hlt, htr⟩, hg'⟩ := hg
    obtain ⟨hb, hd, hi'⟩ := step_invB cy top.1 top.2 s hi (of_decide_eq_true hlt) htr
    obtain ⟨hinv, hnames⟩ := ih (applyOp cy top.1 top.2 s) hg' hi'
    refine ⟨by rw [runOps]; exact hinv, ?_⟩
    rw [runOps, hnames, hb, List.map_take, List.map_cons, take_append_take]
    rw [List.map_cons, List.reverse_cons, List.append_assoc, List.singleton_append]

theorem insertById_perm (l : Livro) : ∀ (xs : List Livro), (insertById l xs).Perm (l :: xs) := by
  intro xs
  induction xs with
  | nil => rfl
  | cons y ys ih =>
    rw [insertById]
    by_cases hc : l.id ≤ y.id
    · rw [if_pos hc]
    · rw [if_neg hc]
      exact (ih.cons y).trans (List.Perm.swap l y ys)

theorem sortById_perm : ∀ (xs : List Livro), (sortById xs).Perm xs := by
  intro xs
  induction xs with
  | nil => rfl
  | cons y ys ih => exact (insertById_perm y (sortById ys)).trans (ih.cons y)

theorem insertById_sorted (x : Livro) : ∀ (xs : List Livro),
    List.Pairwise (fun a b : Livro => a.id ≤ b.id) xs →
    List.Pairwise (fun a b : Livro => a.id ≤ b.id) (insertById x xs) := by
  intro xs
  induction xs with
  | nil => intro _; simp [insertById]
  | cons y ys ih =>
    intro h
    rw [List.pairwise_cons] at h
    rw [insertById]
    by_cases hc : x.id ≤ y.id
    · rw [if_pos hc, List.pairwise_cons]
      refine ⟨?_, List.pairwise_cons.mpr h⟩
      intro b hb
      rcases List.mem_cons.mp hb with rfl | hb'
      · exact hc
      · exact le_trans hc (h.1 b hb')
    · rw [if_neg hc, List.pairwise_cons]
      refine ⟨?_, ih h.2⟩
      intro b hb
      have hb2 := (insertById_perm x ys).mem_iff.mp hb
      rcases List.mem_cons.mp hb2 with rfl | hb'
      · omega
      · exact h.1 b hb'

theorem sortById_sorted : ∀ (xs : List Livro),
    List.Pairwise (fun a b : Livro => a.id ≤ b.id) (sortById xs) := by
  intro xs
  induction xs with
  | nil => simp [sortById]
  | cons y ys ih => exact insertById_sorted y (sortById ys) ih

theorem digitsVal_append_last (ds : List Char) (c : Char) :
    digitsVal (ds ++ [c]) = digitsVal ds * 10 + digitVal c := by
  rw [digitsVal, List.foldl_append]
  rfl

theorem digitChar10_val : ∀ d, d < 10 → digitVal (digitChar10 d) = d := by decide

theorem digitChar10_isDigit : ∀ d, d < 10 → (digitChar10 d).isDigit = true := by decide

theorem natDigitsRevFuel_val : ∀ (fuel n : Nat), n < fuel →
    digitsVal ((natDigitsRevFuel fuel n).reverse) = n := by
  intro fuel
  induction fuel with
  | zero => omega
  | succ fuel ih =>
    intro n hn
    by_cases h0 : n = 0
    · subst h0; simp [natDigitsRevFuel, digitsVal]
    · rw [natDigitsRevFuel, if_neg h0, List.reverse_cons, digitsVal_append_last]
      have hdiv : n / 10 < fuel := by
        have : n / 10 < n := Nat.div_lt_self (Nat.pos_of_ne_zero h0) (by norm_num)
        omega
      rw [ih (n / 10) hdiv, digitChar10_val (n % 10) (Nat.mod_lt n (by omega))]
      omega

theorem renderNat_val (n : Nat) : digitsVal (renderNat n) = n := by
  rw [renderNat]
  by_cases h0 : n = 0
  · subst h0; rfl
  · rw [if_neg h0, natDigitsRevFuel_val (n + 1) n (by omega)]

theorem natDigitsRevFuel_digits : ∀ (fuel n : Nat),
    allDigits (natDigitsRevFuel fuel n) = true := by
  intro fuel
  induction fuel with
  | zero => intro n; rfl
  | succ fuel ih =>
    intro n
    by_cases h0 : n = 0
    · subst h0; rfl
    · rw [natDigitsRevFuel, if_neg h0, allDigits, List.all_cons, Bool.and_eq_true]
      exact ⟨digitChar10_isDigit (n % 10) (Nat.mod_lt n (by omega)), ih (n / 10)⟩

theorem allDigits_reverse (l : List Char) (h : allDigits l = true) :
    allDigits l.reverse = true := by
  rw [allDigits, List.all_eq_true] at h ⊢
  exact fun c hc => h c (List.mem_reverse.mp hc)

theorem renderNat_digits (n : Nat) : allDigits (renderNat n) = true := by
  rw [renderNat]
  by_cases h0 : n = 0
  · subst h0; rfl
  · rw [if_neg h0]
    exact allDigits_reverse _ (natDigitsRevFuel_digits (n + 1) n)

theorem renderNat_ne_nil (n : Nat) : renderNat n ≠ [] := by
  rw [renderNat]
  by_cases h0 : n = 0
  · subst h0; simp
  · rw [if_neg h0, natDigitsRevFuel, if_neg h0]
    simp

theorem natDigitsRevFuel_length : ∀ (fuel n k : Nat), n < 10 ^ k →
    (natDigitsRevFuel fuel n).length ≤ k := by
  intro fuel
  induction fuel with
  | zero => intro n k _; simp [natDigitsRevFuel]
  | succ fuel ih =>
    intro n k hn
    by_cases h0 : n = 0
    · subst h0; simp [natDigitsRevFuel]
    · rw [natDigitsRevFuel, if_neg h0, List.length_cons]
      cases k with
      | zero => simp at hn; omega
      | succ k =>
        have : n / 10 < 10 ^ k := by
          rw [Nat.div_lt_iff_lt_mul (by omega)]
          calc n < 10 ^ (k + 1) := hn
            _ = 10 ^ k * 10 := by ring
        have := ih (n / 10) k this
        omega

theorem renderNat_length_le (n k : Nat) (hn : n < 10 ^ k) (hk : 1 ≤ k) :
    (renderNat n).length ≤ k := by
  rw [renderNat]
  by_cases h0 : n = 0
  · subst h0; simpa using hk
  · rw [if_neg h0, List.length_reverse]
    exact natDigitsRevFuel_length (n + 1) n k hn

theorem digitsVal_replicate_zero (j : Nat) (ds : List Char) :
    digitsVal (List.replicate j '0' ++ ds) = digitsVal ds := by
  induction j with
  | zero => rfl
  | succ j ih =>
    rw [List.replicate_succ, List.cons_append]
    show List.foldl _ (0 * 10 + digitVal '0') _ = _
    have : (0 : Nat) * 10 + digitVal '0' = 0 := by decide
    rw [this]
    exact ih

theorem allDigits_append (l1 l2 : List Char) (h1 : allDigits l1 = true)
    (h2 : allDigits l2 = true) : allDigits (l1 ++ l2) = true := by
  rw [allDigits, List.all_eq_true] at h1 h2 ⊢
  intro c hc
  rcases List.mem_append.mp hc with h | h
  · exact h1 c h
  · exact h2 c h

theorem allDigits_replicate_zero (j : Nat) : allDigits (List.replicate j '0') = true := by
  rw [allDigits, List.all_eq_true]
  intro c hc
  rw [List.eq_of_mem_replicate hc]
  decide

theorem dropWhile_all_false {p : Char → Bool} : ∀ (l : List Char),
    (∀ c ∈ l, p c = false) → l.dropWhile p = l := by
  intro l h
  cases l with
  | nil => rfl
  | cons c cs =>
    rw [List.dropWhile_cons, h c (List.mem_cons_self c cs)]
    simp

theorem takeWhile_all_true {p : Char → Bool} : ∀ (l : List Char),
    (∀ c ∈ l, p c = true) → l.takeWhile p = l ∧ l.dropWhile p = [] := by
  intro l
  induction l with
  | nil => intro _; exact ⟨rfl, rfl⟩
  | cons c cs ih =>
    intro h
    have hc := h c (List.mem_cons_self c cs)
    have := ih (fun x hx => h x (List.mem_cons_of_mem c hx))
    rw [List.takeWhile_cons, List.dropWhile_cons, hc]
    refine ⟨?_, by simpa using this.2⟩
    simp [this.1]

theorem takeWhile_append_stop {p : Char → Bool} : ∀ (l1 : List Char) (x : Char) (l2 : List Char),
    (∀ c ∈ l1, p c = true) → p x = false →
    (l1 ++ x :: l2).takeWhile p = l1 ∧ (l1 ++ x :: l2).dropWhile p = x :: l2 := by
  intro l1
  induction l1 with
  | nil =>
    intro x l2 _ hx
    rw [List.nil_append]
    rw [List.takeWhile_cons, List.dropWhile_cons, hx]
    exact ⟨rfl, rfl⟩
  | cons c cs ih =>
    intro x l2 h hx
    have hc := h c (List.mem_cons_self c cs)
    have := ih x l2 (fun y hy => h y (List.mem_cons_of_mem c hy)) hx
    rw [List.cons_append, List.takeWhile_cons, List.dropWhile_cons, hc]
    refine ⟨?_, by simpa using this.2⟩
    simp [this.1]

theorem isDigit_not_ws (c : Char) (h : c.isDigit = true) : c.isWhitespace = false := by
  by_contra hw
  rw [Bool.not_eq_false] at hw
  simp only [Char.isWhitespace, Bool.or_eq_true, decide_eq_true_eq] at hw
  rcases hw with ((h1 | h1) | h1) | h1 <;> (subst h1; exact absurd h (by decide))

theorem isDigit_ne_minus (c : Char) (h : c.isDigit = true) : c ≠ '-' := by
  intro he; subst he; exact absurd h (by decide)

theorem isDigit_ne_plus (c : Char) (h : c.isDigit = true) : c ≠ '+' := by
  intro he; subst he; exact absurd h (by decide)

theorem pyStrip_id (l : List Char) (h : ∀ c ∈ l, c.isWhitespace = false) :
    pyStrip ⟨l⟩ = ⟨l⟩ := by
  show (⟨((l.dropWhile Char.isWhitespace).reverse.dropWhile Char.isWhitespace).reverse⟩ : String) = _
  rw [dropWhile_all_false l h,
    dropWhile_all_false l.reverse (fun c hc => h c (List.mem_reverse.mp hc)),
    List.reverse_reverse]

theorem splitSign_of_digit (c : Char) (rest : List Char) (h : c.isDigit = true) :
    splitSign (c :: rest) = (false, c :: rest) := by
  rw [splitSign]
  rw [if_neg (isDigit_ne_minus c h), if_neg (isDigit_ne_plus c h)]

theorem pyInt_digits (d : List Char) (h : allDigits d = true) (hne : d ≠ []) :
    pyInt ⟨d⟩ = some ((digitsVal d : Int)) := by
  rw [pyInt, pyStrip_id d (fun c hc =>
    isDigit_not_ws c (List.all_eq_true.mp (by rwa [allDigits] at h) c hc))]
  show pyIntCore d = _
  cases d with
  | nil => exact absurd rfl hne
  | cons c cs =>
    have hc : c.isDigit = true := List.all_eq_true.mp (by rwa [allDigits] at h) c (List.mem_cons_self c cs)
    rw [pyIntCore]
    rw [if_neg (isDigit_ne_minus c hc), if_neg (isDigit_ne_plus c hc), if_pos h]

theorem pyFloat_decimal (d1 d2 : List Char)
    (h1 : allDigits d1 = true) (h2 : allDigits d2 = true)
    (hne : d1 ≠ []) :
    pyFloat ⟨d1 ++ '.' :: d2⟩ =
      some (mkRat ((digitsVal d1 * 10 ^ d2.length + digitsVal d2 : Nat) : Int)
                  (10 ^ d2.length)) := by
  have hd1 : ∀ c ∈ d1, c.isDigit = true := List.all_eq_true.mp (by rwa [allDigits] at h1)
  have hd2 : ∀ c ∈ d2, c.isDigit = true := List.all_eq_true.mp (by rwa [allDigits] at h2)
  have hws : ∀ c ∈ d1 ++ '.' :: d2, c.isWhitespace = false := by
    intro c hc
    rcases List.mem_append.mp hc with h | h
    · exact isDigit_not_ws c (hd1 c h)
    · rcases List.mem_cons.mp h with rfl | h
      · decide
      · exact isDigit_not_ws c (hd2 c h)
  rw [pyFloat, pyStrip_id _ hws]
  obtain ⟨c, cs, rfl⟩ : ∃ c cs, d1 = c :: cs := by
    cases d1 with
    | nil => exact absurd rfl hne
    | cons c cs => exact ⟨c, cs, rfl⟩
  have hc : c.isDigit = true := hd1 c (List.mem_cons_self c cs)
  show (match parseMantissa (splitSign ((c :: cs) ++ '.' :: d2)).2 with
        | none => none
        | some mr => _) = _
  rw [List.cons_append, splitSign_of_digit c (cs ++ '.' :: d2) hc, ← List.cons_append]
  have htake := takeWhile_append_stop (c :: cs) '.' d2 hd1 (by decide)
  have hfrac := takeWhile_all_true d2 hd2
  rw [show parseMantissa ((c :: cs) ++ '.' :: d2) =
      some ((digitsVal (c :: cs) * 10 ^ d2.length + digitsVal d2, d2.length), []) by
    rw [parseMantissa]
    simp only [htake.1, htake.2, hfrac.1, hfrac.2]
    rw [if_neg (by simp)]]
  show some _ = _
  have hk : ((d2.length : Int) - 0) = (d2.length : Int) := by omega
  simp only [parseExpPart, hk]
  rw [if_pos (by positivity), Int.toNat_natCast]
  simp

theorem validar_ano_iff (cy : Int) (s : String) (y : Int) :
    validar_ano cy s = some y ↔ pyInt s = some y ∧ (1000 ≤ y ∧ y ≤ cy + 1) := by
  unfold validar_ano
  cases h : pyInt s with
  | none => simp
  | some a =>
    show (if 1000 ≤ a ∧ a ≤ cy + 1 then some a else none) = some y ↔
      some a = some y ∧ (1000 ≤ y ∧ y ≤ cy + 1)
    by_cases hr : 1000 ≤ a ∧ a ≤ cy + 1
    · rw [if_pos hr]
      simp only [Option.some.injEq]
      constructor
      · rintro rfl; exact ⟨rfl, hr⟩
      · rintro ⟨rfl, _⟩; rfl
    · rw [if_neg hr]
      constructor
      · intro h2; exact absurd h2 (by simp)
      · rintro ⟨ha, h2⟩
        rw [Option.some.injEq] at ha
        subst ha
        exact absurd h2 hr

theorem validar_preco_iff (s : String) (p : Rat) :
    validar_preco s = some p ↔ pyFloat s = some p ∧ 0 ≤ p := by
  unfold validar_preco
  cases h : pyFloat s with
  | none => simp
  | some a =>
    show (if 0 ≤ a then some a else none) = some p ↔ some a = some p ∧ 0 ≤ p
    by_cases hr : 0 ≤ a
    · rw [if_pos hr]
      simp only [Option.some.injEq]
      constructor
      · rintro rfl; exact ⟨rfl, hr⟩
      · rintro ⟨rfl, _⟩; rfl
    · rw [if_neg hr]
      constructor
      · intro h2; exact absurd h2 (by simp)
      · rintro ⟨ha, h2⟩
        rw [Option.some.injEq] at ha
        subst ha
        exact absurd h2 hr

theorem validar_ano_some_range (cy : Int) (str : String) (y : Int)
    (h : validar_ano cy str = some y) : 1000 ≤ y ∧ y ≤ cy + 1 :=
  ((validar_ano_iff cy str y).mp h).2

theorem validar_preco_some_nonneg (str : String) (p : Rat)
    (h : validar_preco str = some p) : 0 ≤ p :=
  ((validar_preco_iff str p).mp h).2

theorem pyInt_renderInt (y : Int) (h : 0 ≤ y) : pyInt (renderInt y) = some y := by
  rw [renderInt, if_neg (by omega)]
  rw [pyInt_digits (renderNat y.natAbs) (renderNat_digits _) (renderNat_ne_nil _), renderNat_val]
  rw [Int.natAbs_of_nonneg h]

theorem validar_ano_renderInt (cy y : Int) (h1 : 1000 ≤ y) (h2 : y ≤ cy + 1) :
    validar_ano cy (renderInt y) = some y := by
  rw [validar_ano_iff]
  exact ⟨pyInt_renderInt y (by omega), h1, h2⟩

theorem decExp_dvd (d k : Nat) (h : decExp d = some k) : d ∣ 10 ^ k := by
  have := List.find?_some h
  simpa using this

theorem validar_preco_renderRat (p : Rat) (hp : 0 ≤ p) (hks : (decExp p.den).isSome = true) :
    validar_preco (renderRat p) = some p := by
  obtain ⟨k, hke⟩ := Option.isSome_iff_exists.mp hks
  have hdvd : p.den ∣ 10 ^ k := decExp_dvd _ _ hke
  set n := p.num.toNat * 10 ^ k / p.den with hn
  set fd := renderNat (n % 10 ^ k) with hfd
  set ip := renderNat (n / 10 ^ k) with hip
  set frac := List.replicate (k - fd.length) '0' ++ fd with hfrac
  have hren : renderRat p = ⟨ip ++ '.' :: frac⟩ := by rw [renderRat, hke]
  have hparse : pyFloat (renderRat p) =
      some (mkRat ((digitsVal ip * 10 ^ frac.length + digitsVal frac : Nat) : Int)
                  (10 ^ frac.length)) := by
    rw [hren]
    exact pyFloat_decimal ip frac (renderNat_digits _)
      (allDigits_append _ _ (allDigits_replicate_zero _) (renderNat_digits _))
      (renderNat_ne_nil _)
  -- arithmetic facts
  have hmod : n % 10 ^ k < 10 ^ k := Nat.mod_lt _ (Nat.pos_pow_of_pos k (by norm_num))
  have hvip : digitsVal ip = n / 10 ^ k := renderNat_val _
  have hvfrac : digitsVal frac = n % 10 ^ k := by
    rw [hfrac, digitsVal_replicate_zero, hfd, renderNat_val]
  have hK : frac.length = (k - fd.length) + fd.length := by
    rw [hfrac, List.length_append, List.length_replicate]
  have hF1 : n * p.den = p.num.toNat * 10 ^ k :=
    Nat.div_mul_cancel (Dvd.dvd.mul_left hdvd _)
  set A := digitsVal ip * 10 ^ frac.length + digitsVal frac with hA
  have hF2 : A * 10 ^ k = n * 10 ^ frac.length := by
    rcases Nat.eq_zero_or_pos k with hk0 | hkpos
    · subst hk0
      have hfd1 : fd = ['0'] := by
        rw [hfd]
        have h01 : n % 10 ^ 0 = 0 := by
          simp [Nat.mod_one]
        rw [h01]
        rfl
      have hK1 : frac.length = 1 := by rw [hK, hfd1]; rfl
      rw [hA, hvip, hvfrac, hK1]
      simp [Nat.mod_one]
    · have hlen : fd.length ≤ k := by
        rw [hfd]
        exact renderNat_length_le _ _ hmod hkpos
      have hKk : frac.length = k := by omega
      have hdm := Nat.div_add_mod n (10 ^ k)
      rw [Nat.mul_comm] at hdm
      rw [hA, hvip, hvfrac, hKk, hdm]
  have hnum : (p.num.toNat : Int) = p.num := Int.toNat_of_nonneg (Rat.num_nonneg.mpr hp)
  have hpos : (0:Nat) < 10 ^ k := Nat.pos_pow_of_pos k (by norm_num)
  have hAden : A * p.den = p.num.toNat * 10 ^ frac.length := by
    have h1 : (A * p.den) * 10 ^ k = (p.num.toNat * 10 ^ frac.length) * 10 ^ k := by
      calc (A * p.den) * 10 ^ k = (A * 10 ^ k) * p.den := by ring
        _ = (n * 10 ^ frac.length) * p.den := by rw [hF2]
        _ = (n * p.den) * 10 ^ frac.length := by ring
        _ = (p.num.toNat * 10 ^ k) * 10 ^ frac.length := by rw [hF1]
        _ = (p.num.toNat * 10 ^ frac.length) * 10 ^ k := by ring
    exact Nat.eq_of_mul_eq_mul_right hpos h1
  have hval : mkRat ((A : Nat) : Int) (10 ^ frac.length) = p := by
    conv_rhs => rw [← Rat.mkRat_self p]
    rw [Rat.mkRat_eq_iff (by positivity) p.den_nz]
    rw [← hnum]
    exact_mod_cast hAden
  unfold validar_preco
  rw [hparse, hval]
  simp [hp]

theorem renderInt_ne_empty (y : Int) : renderInt y ≠ "" := by
  rw [renderInt]
  by_cases hy : y < 0
  · rw [if_pos hy]
    intro he
    exact List.cons_ne_nil _ _ (congrArg String.data he)
  · rw [if_neg hy]
    intro he
    exact renderNat_ne_nil y.natAbs (congrArg String.data he)

theorem renderRat_ne_empty (p : Rat) (k : Nat) (hke : decExp p.den = some k) :
    renderRat p ≠ "" := by
  rw [renderRat, hke]
  intro he
  have := congrArg String.data he
  simp only [String.data] at this
  exact List.cons_ne_nil _ _ (List.append_eq_nil.mp this).2

theorem getCol_exportRow_titulo (l : Livro) : getCol (exportRow l) "titulo" "title" = l.titulo := by
  show (if l.titulo = "" then "" else l.titulo) = l.titulo
  by_cases he : l.titulo = ""
  · rw [if_pos he, he]
  · rw [if_neg he]

theorem getCol_exportRow_autor (l : Livro) : getCol (exportRow l) "autor" "author" = l.autor := by
  show (if l.autor = "" then "" else l.autor) = l.autor
  by_cases he : l.autor = ""
  · rw [if_pos he, he]
  · rw [if_neg he]

theorem getCol_exportRow_ano (l : Livro) :
    getCol (exportRow l) "ano_publicacao" "year" =
      (match l.ano with | none => "" | some y => renderInt y) := by
  show (if (match l.ano with | none => "" | some y => renderInt y) = "" then ""
        else (match l.ano with | none => "" | some y => renderInt y)) = _
  by_cases he : (match l.ano with | none => "" | some y => renderInt y) = ""
  · rw [if_pos he, he]
  · rw [if_neg he]

theorem getCol_exportRow_preco (l : Livro) :
    getCol (exportRow l) "preco" "price" =
      (match l.preco with | none => "" | some p => renderRat p) := by
  show (if (match l.preco with | none => "" | some p => renderRat p) = "" then ""
        else (match l.preco with | none => "" | some p => renderRat p)) = _
  by_cases he : (match l.preco with | none => "" | some p => renderRat p) = ""
  · rw [if_pos he, he]
  · rw [if_neg he]

theorem exportableLivro_parts (cy : Int) (l : Livro) (h : exportableLivro cy l = true) :
    pyStrip l.titulo = l.titulo ∧ pyStrip l.autor = l.autor ∧
    (∀ y, l.ano = some y → 1000 ≤ y ∧ y ≤ cy + 1) ∧
    (∀ p, l.preco = some p → 0 ≤ p ∧ (decExp p.den).isSome = true) := by
  rw [exportableLivro, Bool.and_eq_true, Bool.and_eq_true, Bool.and_eq_true] at h
  obtain ⟨⟨⟨h1, h2⟩, h3⟩, h4⟩ := h
  refine ⟨by simpa using h1, by simpa using h2, ?_, ?_⟩
  · intro y hy
    rw [hy] at h3
    simp only [Bool.and_eq_true, decide_eq_true_eq] at h3
    exact h3
  · intro p hp
    rw [hp] at h4
    simp only [Bool.and_eq_true, decide_eq_true_eq] at h4
    exact h4

theorem rowLivro_exportRow (cy : Int) (newId : Nat) (l : Livro)
    (hexp : exportableLivro cy l = true) :
    rowLivro cy newId (exportRow l) = ⟨newId, l.titulo, l.autor, l.ano, l.preco⟩ := by
  obtain ⟨ht, ha, hy, hpc⟩ := exportableLivro_parts cy l hexp
  rw [rowLivro, getCol_exportRow_titulo, getCol_exportRow_autor, getCol_exportRow_ano,
    getCol_exportRow_preco, ht, ha]
  have hano : (if (match l.ano with | none => "" | some y => renderInt y) = "" then none
      else validar_ano cy (match l.ano with | none => "" | some y => renderInt y)) = l.ano := by
    cases hcase : l.ano with
    | none => rw [if_pos rfl]
    | some y =>
      rw [if_neg (renderInt_ne_empty y)]
      exact validar_ano_renderInt cy y (hy y hcase).1 (hy y hcase).2
  have hpreco : (if (match l.preco with | none => "" | some p => renderRat p) = "" then none
      else validar_preco (match l.preco with | none => "" | some p => renderRat p)) = l.preco := by
    cases hcase : l.preco with
    | none => rw [if_pos rfl]
    | some p =>
      obtain ⟨hp0, hpk⟩ := hpc p hcase
      obtain ⟨k, hke⟩ := Option.isSome_iff_exists.mp hpk
      rw [if_neg (renderRat_ne_empty p k hke)]
      exact validar_preco_renderRat p hp0 hpk
  rw [hano, hpreco]

theorem insertedRecords_export (cy : Int) : ∀ (lv : List Livro) (startId : Nat),
    (∀ l ∈ lv, exportableLivro cy l = true) →
    (insertedRecords cy startId (lv.map exportRow)).map tupla = lv.map tupla := by
  intro lv
  induction lv with
  | nil => intro _ _; rfl
  | cons x xs ih =>
    intro startId h
    rw [List.map_cons, insertedRecords, List.map_cons,
      rowLivro_exportRow cy startId x (h x (List.mem_cons_self x xs)),
      ih (startId + 1) (fun l hl => h l (List.mem_cons_of_mem x hl)), List.map_cons]
    rfl

theorem likeMatchFuel_percent : ∀ (fuel : Nat) (t : List Char), t.length + 2 ≤ fuel →
    likeMatchFuel fuel ['%'] t = true := by
  intro fuel
  induction fuel with
  | zero => intro t h; omega
  | succ fuel ih =>
    intro t h
    cases t with
    | nil =>
      show likeMatchFuel fuel [] [] = true
      cases fuel with
      | zero => simp at h
      | succ f => rfl
    | cons d ts =>
      show (likeMatchFuel fuel [] (d :: ts) || likeMatchFuel fuel ['%'] ts) = true
      rw [ih ts (by simp at h ⊢; omega)]
      simp

theorem likeMatchFuel_percent2 : ∀ (fuel : Nat) (t : List Char), t.length + 3 ≤ fuel →
    likeMatchFuel fuel ['%', '%'] t = true := by
  intro fuel
  induction fuel with
  | zero => intro t h; omega
  | succ fuel ih =>
    intro t h
    cases t with
    | nil =>
      show likeMatchFuel fuel ['%'] [] = true
      exact likeMatchFuel_percent fuel [] (by simp at h ⊢; omega)
    | cons d ts =>
      show (likeMatchFuel fuel ['%'] (d :: ts) || likeMatchFuel fuel ['%', '%'] ts) = true
      rw [likeMatchFuel_percent fuel (d :: ts) (by simp at h ⊢; omega)]
      simp

theorem likeMatch_percent2 (t : List Char) : likeMatch ['%', '%'] t = true := by
  rw [likeMatch]
  exact likeMatchFuel_percent2 _ t (by simp; omega)

theorem pairwiseB_append_intro {α : Type} (p : α → α → Bool) (l1 l2 : List α)
    (h1 : pairwiseB p l1 = true) (h2 : pairwiseB p l2 = true)
    (hc : ∀ a ∈ l1, ∀ b ∈ l2, p a b = true) : pairwiseB p (l1 ++ l2) = true := by
  induction l1 with
  | nil => exact h2
  | cons x xs ih =>
    rw [pairwiseB_cons, Bool.and_eq_true] at h1
    rw [List.cons_append, pairwiseB_cons, Bool.and_eq_true]
    constructor
    · rw [List.all_append, Bool.and_eq_true]
      exact ⟨h1.1, List.all_eq_true.mpr (fun b hb => hc x (List.mem_cons_self x xs) b hb)⟩
    · exact ih h1.2 (fun a ha b hb => hc a (List.mem_cons_of_mem x ha) b hb)

theorem pairwiseB_filter {α : Type} (p : α → α → Bool) (q : α → Bool) (l : List α)
    (h : pairwiseB p l = true) : pairwiseB p (l.filter q) = true := by
  induction l with
  | nil => rfl
  | cons a rest ih =>
    rw [pairwiseB_cons, Bool.and_eq_true] at h
    rw [List.filter_cons]
    by_cases hq : q a = true
    · rw [if_pos hq, pairwiseB_cons, Bool.and_eq_true]
      refine ⟨List.all_eq_true.mpr (fun b hb => ?_), ih h.2⟩
      exact List.all_eq_true.mp h.1 b (List.mem_of_mem_filter hb)
    · rw [if_neg hq]
      exact ih h.2

theorem pairwiseB_map_of_rel {α β : Type} (p : α → α → Bool) (q : β → β → Bool)
    (f : α → β) (l : List α) (hrel : ∀ a b, p a b = true → q (f a) (f b) = true)
    (h : pairwiseB p l = true) : pairwiseB q (l.map f) = true := by
  induction l with
  | nil => rfl
  | cons a rest ih =>
    rw [pairwiseB_cons, Bool.and_eq_true] at h
    rw [List.map_cons, pairwiseB_cons, Bool.and_eq_true]
    refine ⟨List.all_eq_true.mpr (fun b hb => ?_), ih h.2⟩
    obtain ⟨x, hx, rfl⟩ := List.mem_map.mp hb
    exact hrel a x (List.all_eq_true.mp h.1 x hx)

theorem pairwiseB_distinct_inj (l : List Livro)
    (h : pairwiseB (fun a b => !(a.id == b.id)) l = true) :
    ∀ x ∈ l, ∀ y ∈ l, x.id = y.id → x = y := by
  induction l with
  | nil => simp
  | cons a rest ih =>
    rw [pairwiseB_cons, Bool.and_eq_true] at h
    intro x hx y hy hxy
    rcases List.mem_cons.mp hx with rfl | hx' <;> rcases List.mem_cons.mp hy with rfl | hy'
    · rfl
    · have := List.all_eq_true.mp h.1 y hy'
      simp only [Bool.not_eq_true', beq_eq_false_iff_ne] at this
      exact absurd hxy this
    · have := List.all_eq_true.mp h.1 x hx'
      simp only [Bool.not_eq_true', beq_eq_false_iff_ne] at this
      exact absurd hxy.symm this
    · exact ih h.2 x hx' y hy' hxy

theorem storeInvB_parts (cy : Int) (s : DBState) (h : storeInvB cy s = true) :
    s.livros.all (fun l => decide (l.id < s.nextId)) = true ∧
    pairwiseB (fun a b => !(a.id == b.id)) s.livros = true ∧
    s.livros.all (rangeOkB cy) = true := by
  rw [storeInvB, Bool.and_eq_true, Bool.and_eq_true] at h
  exact ⟨h.1.1, h.1.2, h.2⟩

theorem insertedRecords_id_bound (cy : Int) : ∀ (rows : List CsvRow) (n : Nat),
    ∀ l ∈ insertedRecords cy n rows, n ≤ l.id ∧ l.id < n + rows.length := by
  intro rows
  induction rows with
  | nil => intro n l hl; simp [insertedRecords] at hl
  | cons r rest ih =>
    intro n l hl
    rw [insertedRecords] at hl
    rcases List.mem_cons.mp hl with rfl | hl'
    · show n ≤ (rowLivro cy n r).id ∧ (rowLivro cy n r).id < _
      rw [show (rowLivro cy n r).id = n from rfl]
      simp
    · have := ih (n + 1) l hl'
      rw [List.length_cons]
      omega

theorem insertedRecords_pairwise (cy : Int) : ∀ (rows : List CsvRow) (n : Nat),
    pairwiseB (fun a b => !(a.id == b.id)) (insertedRecords cy n rows) = true := by
  intro rows
  induction rows with
  | nil => intro n; rfl
  | cons r rest ih =>
    intro n
    rw [insertedRecords, pairwiseB_cons, Bool.and_eq_true]
    refine ⟨List.all_eq_true.mpr (fun b hb => ?_), ih (n + 1)⟩
    have := (insertedRecords_id_bound cy rest (n + 1) b hb).1
    have hid : (rowLivro cy n r).id = n := rfl
    simp only [Bool.not_eq_true', beq_eq_false_iff_ne, hid]
    omega

theorem rowLivro_rangeOk (cy : Int) (i : Nat) (r : CsvRow) :
    rangeOkB cy (rowLivro cy i r) = true := by
  rw [rangeOkB, Bool.and_eq_true]
  constructor
  · cases hcase : (rowLivro cy i r).ano with
    | none => rfl
    | some y =>
      have hcase' : (if getCol r "ano_publicacao" "year" = "" then none
          else validar_ano cy (getCol r "ano_publicacao" "year")) = some y := hcase
      by_cases hraw : getCol r "ano_publicacao" "year" = ""
      · rw [if_pos hraw] at hcase'
        exact absurd hcase' (by simp)
      · rw [if_neg hraw] at hcase'
        have := validar_ano_some_range cy _ y hcase'
        simp only [Bool.and_eq_true, decide_eq_true_eq]
        exact this
  · cases hcase : (rowLivro cy i r).preco with
    | none => rfl
    | some p =>
      have hcase' : (if getCol r "preco" "price" = "" then none
          else validar_preco (getCol r "preco" "price")) = some p := hcase
      by_cases hraw : getCol r "preco" "price" = ""
      · rw [if_pos hraw] at hcase'
        exact absurd hcase' (by simp)
      · rw [if_neg hraw] at hcase'
        have := validar_preco_some_nonneg _ p hcase'
        simp only [decide_eq_true_eq]
        exact this

theorem insertedRecords_rangeOk (cy : Int) : ∀ (rows : List CsvRow) (n : Nat),
    (insertedRecords cy n rows).all (rangeOkB cy) = true := by
  intro rows
  induction rows with
  | nil => intro n; rfl
  | cons r rest ih =>
    intro n
    rw [insertedRecords, List.all_cons, Bool.and_eq_true]
    exact ⟨rowLivro_rangeOk cy n r, ih (n + 1)⟩

theorem rangeOkB_parts (cy : Int) (l : Livro) (h : rangeOkB cy l = true) :
    (match l.ano with | none => true | some y => decide (1000 ≤ y) && decide (y ≤ cy + 1)) = true ∧
    (match l.preco with | none => true | some p => decide (0 ≤ p)) = true := by
  rw [rangeOkB, Bool.and_eq_true] at h
  exact h

theorem updPreco_id (i : Nat) (p : Option Rat) (l : Livro) :
    (if l.id == i then { l with preco := p } else l).id = l.id := by
  by_cases h : (l.id == i) = true
  · rw [if_pos h]
  · rw [if_neg h]

theorem updPreco_titulo (i : Nat) (p : Option Rat) (l : Livro) :
    (if l.id == i then { l with preco := p } else l).titulo = l.titulo := by
  by_cases h : (l.id == i) = true
  · rw [if_pos h]
  · rw [if_neg h]

theorem updPreco_autor (i : Nat) (p : Option Rat) (l : Livro) :
    (if l.id == i then { l with preco := p } else l).autor = l.autor := by
  by_cases h : (l.id == i) = true
  · rw [if_pos h]
  · rw [if_neg h]

theorem updPreco_ano (i : Nat) (p : Option Rat) (l : Livro) :
    (if l.id == i then { l with preco := p } else l).ano = l.ano := by
  by_cases h : (l.id == i) = true
  · rw [if_pos h]
  · rw [if_neg h]

theorem storeInv_adicionar (cy : Int) (now : Nat) (ti au : String) (an : Option Int)
    (pr : Option Rat) (s : DBState) (h : storeInvB cy s = true)
    (han : (match an with | none => true | some y => decide (1000 ≤ y) && decide (y ≤ cy + 1)) = true)
    (hpr : (match pr with | none => true | some p => decide (0 ≤ p)) = true) :
    storeInvB cy (adicionar_livro now ti au an pr s).2 = true := by
  obtain ⟨i1, i2, i3⟩ := storeInvB_parts cy s h
  rw [adicionar_state, storeInvB, Bool.and_eq_true, Bool.and_eq_true]
  refine ⟨⟨?_, ?_⟩, ?_⟩
  · rw [List.all_append, Bool.and_eq_true]
    constructor
    · refine List.all_eq_true.mpr (fun l hl => ?_)
      have := of_decide_eq_true (List.all_eq_true.mp i1 l hl)
      simp only [decide_eq_true_eq]
      omega
    · simp
  · refine pairwiseB_append_intro _ _ _ i2 rfl (fun a ha b hb => ?_)
    rw [List.mem_singleton] at hb
    subst hb
    have := of_decide_eq_true (List.all_eq_true.mp i1 a ha)
    simp only [Bool.not_eq_true', beq_eq_false_iff_ne]
    show a.id ≠ s.nextId
    omega
  · rw [List.all_append, Bool.and_eq_true]
    refine ⟨i3, ?_⟩
    show (rangeOkB cy ⟨s.nextId, pyStrip ti, pyStrip au, an, pr⟩ && true) = true
    rw [Bool.and_true, rangeOkB, Bool.and_eq_true]
    exact ⟨han, hpr⟩

theorem storeInv_atualizar (cy : Int) (now i : Nat) (p : Option Rat) (s : DBState)
    (h : storeInvB cy s = true)
    (hp : (match p with | none => true | some x => decide (0 ≤ x)) = true) :
    storeInvB cy (atualizar_preco_livro now i p s).2 = true := by
  obtain ⟨i1, i2, i3⟩ := storeInvB_parts cy s h
  cases hf : s.livros.find? (fun l => l.id == i) with
  | none =>
    unfold atualizar_preco_livro
    rw [hf]
    exact h
  | some x =>
    unfold atualizar_preco_livro
    rw [hf]
    rw [storeInvB, Bool.and_eq_true, Bool.and_eq_true]
    refine ⟨⟨?_, ?_⟩, ?_⟩
    · refine List.all_eq_true.mpr (fun l hl => ?_)
      obtain ⟨x2, hx2, rfl⟩ := List.mem_map.mp hl
      rw [updPreco_id]
      exact List.all_eq_true.mp i1 x2 hx2
    · refine pairwiseB_map_of_rel _ _ _ _ (fun a b hab => ?_) i2
      rw [show (if a.id == i then { a with preco := p } else a).id = a.id from updPreco_id i p a,
        show (if b.id == i then { b with preco := p } else b).id = b.id from updPreco_id i p b]
      exact hab
    · refine List.all_eq_true.mpr (fun l hl => ?_)
      obtain ⟨x2, hx2, rfl⟩ := List.mem_map.mp hl
      have hr := rangeOkB_parts cy x2 (List.all_eq_true.mp i3 x2 hx2)
      rw [rangeOkB, Bool.and_eq_true, updPreco_ano]
      refine ⟨hr.1, ?_⟩
      by_cases hc : (x2.id == i) = true
      · rw [if_pos hc]
        exact hp
      · rw [if_neg hc]
        exact hr.2

theorem storeInv_remover (cy : Int) (now i : Nat) (s : DBState)
    (h : storeInvB cy s = true) :
    storeInvB cy (remover_livro now i s).2 = true := by
  obtain ⟨i1, i2, i3⟩ := storeInvB_parts cy s h
  cases hf : s.livros.find? (fun l => l.id == i) with
  | none =>
    unfold remover_livro
    rw [hf]
    exact h
  | some x =>
    unfold remover_livro
    rw [hf]
    rw [storeInvB, Bool.and_eq_true, Bool.and_eq_true]
    refine ⟨⟨?_, ?_⟩, ?_⟩
    · exact List.all_eq_true.mpr (fun l hl =>
        List.all_eq_true.mp i1 l (List.mem_of_mem_filter hl))
    · exact pairwiseB_filter _ _ _ i2
    · exact List.all_eq_true.mpr (fun l hl =>
        List.all_eq_true.mp i3 l (List.mem_of_mem_filter hl))

theorem storeInv_removerTodos (cy : Int) (now : Nat) (s : DBState)
    (h : storeInvB cy s = true) :
    storeInvB cy (remover_todos_livros now s).2 = true := by
  by_cases he : s.livros = []
  · rw [removerTodos_empty now s he]
    exact h
  · rw [removerTodos_nonempty now s he]
    rfl

theorem storeInv_import (cy : Int) (now : Nat) (file : Option (List CsvRow)) (s : DBState)
    (h : storeInvB cy s = true) :
    storeInvB cy (applyOp cy now (.fromCsv file) s) = true := by
  obtain ⟨i1, i2, i3⟩ := storeInvB_parts cy s h
  cases file with
  | none => exact h
  | some rows =>
    cases rows with
    | nil => exact h
    | cons r rest =>
      rw [show applyOp cy now (.fromCsv (some (r :: rest))) s =
          ⟨s.livros ++ insertedRecords cy s.nextId (r :: rest),
           s.nextId + (r :: rest).length, now, (backup_db now s).backups⟩ by
        rw [applyOp, importar_spec now cy (r :: rest) s (by simp)]]
      rw [storeInvB, Bool.and_eq_true, Bool.and_eq_true]
      refine ⟨⟨?_, ?_⟩, ?_⟩
      · rw [List.all_append, Bool.and_eq_true]
        constructor
        · refine List.all_eq_true.mpr (fun l hl => ?_)
          have := of_decide_eq_true (List.all_eq_true.mp i1 l hl)
          simp only [decide_eq_true_eq]
          omega
        · refine List.all_eq_true.mpr (fun l hl => ?_)
          have := (insertedRecords_id_bound cy (r :: rest) s.nextId l hl).2
          simp only [decide_eq_true_eq]
          omega
      · refine pairwiseB_append_intro _ _ _ i2 (insertedRecords_pairwise cy (r :: rest) s.nextId)
          (fun a ha b hb => ?_)
        have h1 := of_decide_eq_true (List.all_eq_true.mp i1 a ha)
        have h2 := (insertedRecords_id_bound cy (r :: rest) s.nextId b hb).1
        simp only [Bool.not_eq_true', beq_eq_false_iff_ne]
        omega
      · rw [List.all_append, Bool.and_eq_true]
        exact ⟨i3, insertedRecords_rangeOk cy (r :: rest) s.nextId⟩

theorem applyOp_id_immutable (cy : Int) (t : Nat) (op : Op) (s : DBState)
    (h : storeInvB cy s = true) :
    ∀ l ∈ s.livros, ∀ l2 ∈ (applyOp cy t op s).livros, l2.id = l.id →
      l2.titulo = l.titulo ∧ l2.autor = l.autor ∧ l2.ano = l.ano := by
  obtain ⟨i1, i2, _⟩ := storeInvB_parts cy s h
  have hinj := pairwiseB_distinct_inj s.livros i2
  have hbase : ∀ l ∈ s.livros, ∀ l2 ∈ s.livros, l2.id = l.id →
      l2.titulo = l.titulo ∧ l2.autor = l.autor ∧ l2.ano = l.ano := by
    intro l hl l2 hl2 hid
    rw [hinj l2 hl2 l hl hid]
    exact ⟨rfl, rfl, rfl⟩
  cases op with
  | adicionar ti au an pr =>
    rw [applyOp, adicionar_state]
    intro l hl l2 hl2 hid
    rcases List.mem_append.mp hl2 with hl2' | hl2'
    · exact hbase l hl l2 hl2' hid
    · rw [List.mem_singleton] at hl2'
      subst hl2'
      have := of_decide_eq_true (List.all_eq_true.mp i1 l hl)
      exact absurd hid (by show s.nextId ≠ l.id; omega)
  | atualizarPreco i p =>
    cases hf : s.livros.find? (fun l => l.id == i) with
    | none =>
      rw [applyOp]
      unfold atualizar_preco_livro
      rw [hf]
      exact hbase
    | some x =>
      have hpx := List.find?_some hf
      rw [applyOp, atualizar_found t i p s
        (List.any_eq_true.mpr ⟨x, List.mem_of_find?_eq_some hf, hpx⟩)]
      intro l hl l2 hl2 hid
      obtain ⟨x2, hx2, rfl⟩ := List.mem_map.mp hl2
      rw [updPreco_id] at hid
      rw [updPreco_titulo, updPreco_autor, updPreco_ano]
      exact hbase l hl x2 hx2 hid
  | remover i =>
    cases hf : s.livros.find? (fun l => l.id == i) with
    | none =>
      rw [applyOp]
      unfold remover_livro
      rw [hf]
      exact hbase
    | some x =>
      have hpx := List.find?_some hf
      rw [applyOp, remover_found t i s
        (List.any_eq_true.mpr ⟨x, List.mem_of_find?_eq_some hf, hpx⟩)]
      intro l hl l2 hl2 hid
      exact hbase l hl l2 (List.mem_of_mem_filter hl2) hid
  | removerTodos =>
    by_cases he : s.livros = []
    · rw [applyOp, removerTodos_empty t s he]
      exact hbase
    · rw [applyOp, removerTodos_nonempty t s he]
      intro l _ l2 hl2 _
      exact absurd hl2 (List.not_mem_nil l2)
  | fromCsv file =>
    cases file with
    | none => exact hbase
    | some rows =>
      cases rows with
      | nil => exact hbase
      | cons r rest =>
        rw [show applyOp cy t (.fromCsv (some (r :: rest))) s =
            ⟨s.livros ++ insertedRecords cy s.nextId (r :: rest),
             s.nextId + (r :: rest).length, t, (backup_db t s).backups⟩ by
          rw [applyOp, importar_spec t cy (r :: rest) s (by simp)]]
        intro l hl l2 hl2 hid
        rcases List.mem_append.mp hl2 with hl2' | hl2'
        · exact hbase l hl l2 hl2' hid
        · have hb := (insertedRecords_id_bound cy (r :: rest) s.nextId l2 hl2').1
          have := of_decide_eq_true (List.all_eq_true.mp i1 l hl)
          omega

theorem insertedRecords_length (cy : Int) : ∀ (rows : List CsvRow) (n : Nat),
    (insertedRecords cy n rows).length = rows.length := by
  intro rows
  induction rows with
  | nil => intro n; rfl
  | cons r rest ih =>
    intro n
    rw [insertedRecords, List.length_cons, List.length_cons, ih (n + 1)]

/-- C1: for every mutating catalog operation that actually changes the store
(insert; price update and single delete on an existing id; delete-all on a
nonempty catalog; CSV import with at least one data row), a backup of the
store is created strictly before the mutation is applied: immediately after
the operation, the most recent archive in the backup directory holds exactly
the catalog as it was just before the change. -/
theorem aoros_C1 (cy : Int) (now : Nat) (op : Op) (s : DBState)
    (htr : Triggers op s = true) (hf : freshBackupB now s = true) :
    latestBackup (applyOp cy now op s) = some ⟨now, s.dbMtime, s.livros⟩ := by
  obtain ⟨hb, _⟩ := applyOp_triggered cy now op s htr
  rw [latestBackup, hb, backup_db_backups now s hf]
  exact latest_of_take now s hf

theorem aoros_C1_witness :
    Triggers (Op.adicionar "Iracema" "Alencar" (some 1865) none) sEx = true ∧
    freshBackupB 100 sEx = true ∧
    latestBackup (applyOp 2026 100 (Op.adicionar "Iracema" "Alencar" (some 1865) none) sEx) =
      some ⟨100, sEx.dbMtime, sEx.livros⟩ :=
  ⟨by decide, by decide,
   aoros_C1 2026 100 (Op.adicionar "Iracema" "Alencar" (some 1865) none) sEx
     (by decide) (by decide)⟩

/-- C2: on an id not present in the catalog, `atualizar_preco_livro` and
`remover_livro` return false and leave the whole state — catalog and backup
directory — unchanged: the existence check is a separate read step that runs
before any backup fires, so no archive is created. -/
theorem aoros_C2 (now i : Nat) (p : Option Rat) (s : DBState)
    (h : ∀ l ∈ s.livros, l.id ≠ i) :
    atualizar_preco_livro now i p s = (false, s) ∧ remover_livro now i s = (false, s) :=
  ⟨atualizar_missing now i p s h, remover_missing now i s h⟩

theorem aoros_C2_witness :
    (∀ l ∈ sEx.livros, l.id ≠ 99) ∧
    atualizar_preco_livro 100 99 (some (mkRat 1 1)) sEx = (false, sEx) ∧
    remover_livro 100 99 sEx = (false, sEx) :=
  ⟨by decide, (aoros_C2 100 99 (some (mkRat 1 1)) sEx (by decide)).1,
   (aoros_C2 100 99 (some (mkRat 1 1)) sEx (by decide)).2⟩

/-- C3: `remover_todos_livros` on an empty catalog returns false with the
state untouched (no backup); on a nonempty catalog it returns true, empties
the catalog, and the backup directory afterwards is exactly the previous one
with one new archive prepended (then pruned to the retention count), whose
contents are the pre-deletion catalog — which is also the most recent
archive. -/
theorem aoros_C3 (now : Nat) (s : DBState) (hf : freshBackupB now s = true) :
    (s.livros = [] → remover_todos_livros now s = (false, s)) ∧
    (s.livros ≠ [] →
      (remover_todos_livros now s).1 = true ∧
      (remover_todos_livros now s).2.livros = [] ∧
      (remover_todos_livros now s).2.backups =
        ((⟨now, s.dbMtime, s.livros⟩ : Archive) :: s.backups).take MAX_BACKUPS_TO_KEEP ∧
      latestBackup (remover_todos_livros now s).2 = some ⟨now, s.dbMtime, s.livros⟩) := by
  constructor
  · exact removerTodos_empty now s
  · intro hne
    rw [removerTodos_nonempty now s hne]
    refine ⟨rfl, rfl, ?_, ?_⟩
    · show (backup_db now s).backups = _
      exact backup_db_backups now s hf
    · show (sortByMtimeDesc (backup_db now s).backups).head? = _
      rw [backup_db_backups now s hf]
      exact latest_of_take now s hf

theorem aoros_C3_witness :
    freshBackupB 100 sEx = true ∧
    (sEx.livros = [] → remover_todos_livros 100 sEx = (false, sEx)) ∧
    (sEx.livros ≠ [] →
      (remover_todos_livros 100 sEx).1 = true ∧
      (remover_todos_livros 100 sEx).2.livros = [] ∧
      (remover_todos_livros 100 sEx).2.backups =
        ((⟨100, sEx.dbMtime, sEx.livros⟩ : Archive) :: sEx.backups).take MAX_BACKUPS_TO_KEEP ∧
      latestBackup (remover_todos_livros 100 sEx).2 = some ⟨100, sEx.dbMtime, sEx.livros⟩) :=
  ⟨by decide, (aoros_C3 100 sEx (by decide)).1, (aoros_C3 100 sEx (by decide)).2⟩

/-- C4 counterexample: a sequence of eight backup-firing insertions, all
within the same wall-clock second, collides on the timestamped archive name
(`shutil.copy2` overwrites), leaving one archive in the backup directory
rather than the claimed five. -/
theorem aoros_C4_counterexample :
    (runOps 2026 (List.replicate 8 (100, Op.adicionar "T" "A" none none))
      ⟨[], 1, 10, []⟩).backups.length = 1 := by decide

/-- C4 amended: after a sequence of `N ≥ 5` backup-firing mutating
operations at pairwise distinct, increasing timestamps, starting from an
empty backup directory, exactly five archives remain and they are exactly
the archives of the five most recent operations (pruning sorts by
modification time descending and deletes every archive beyond the fifth). -/
theorem aoros_C4 (cy : Int) (ops : List (Nat × Op)) (s : DBState)
    (hg : GoodRun cy ops s = true) (hi : invB s = true) (hb : s.backups = [])
    (hlen : MAX_BACKUPS_TO_KEEP ≤ ops.length) :
    (runOps cy ops s).backups.map (fun b => b.name) =
      ((ops.map Prod.fst).reverse).take MAX_BACKUPS_TO_KEEP ∧
    (runOps cy ops s).backups.length = MAX_BACKUPS_TO_KEEP := by
  obtain ⟨_, hnames⟩ := runOps_names cy ops s hg hi
  rw [hb] at hnames
  simp only [List.map_nil, List.append_nil] at hnames
  refine ⟨hnames, ?_⟩
  have hl2 := congrArg List.length hnames
  rw [List.length_map] at hl2
  rw [hl2, List.length_take, List.length_reverse, List.length_map]
  omega

theorem aoros_C4_witness :
    GoodRun 2026 opsEx sEmpty = true ∧ invB sEmpty = true ∧ sEmpty.backups = [] ∧
    MAX_BACKUPS_TO_KEEP ≤ opsEx.length ∧
    ((runOps 2026 opsEx sEmpty).backups.map (fun b => b.name) =
      ((opsEx.map Prod.fst).reverse).take MAX_BACKUPS_TO_KEEP ∧
     (runOps 2026 opsEx sEmpty).backups.length = MAX_BACKUPS_TO_KEEP) :=
  ⟨by decide, by decide, by decide, by decide,
   aoros_C4 2026 opsEx sEmpty (by decide) (by decide) (by decide) (by decide)⟩

/-- C5 counterexample: two consecutive `backup_db` calls within the same
wall-clock second produce the same timestamped archive name, so the second
call overwrites the first instead of producing its own archive — one archive
remains where the claim requires two. -/
theorem aoros_C5_counterexample :
    (backup_db 100 (backup_db 100 sEx)).backups.length = 1 := by decide

/-- C5 amended: two consecutive `backup_db` calls do not collide when they
happen at distinct seconds (both archives are present afterwards, the first
unharmed); within the same second the timestamped name is reused and the
second copy overwrites the first (last-write-wins). -/
theorem aoros_C5 (now1 now2 : Nat) (s : DBState)
    (hf : freshBackupB now1 s = true)
    (h2 : s.backups.all (fun b => !(b.name == now2)) = true)
    (hne : now1 ≠ now2)
    (hlen : s.backups.length + 2 ≤ MAX_BACKUPS_TO_KEEP) :
    (backup_db now2 (backup_db now1 s)).backups =
      (⟨now2, s.dbMtime, s.livros⟩ : Archive) ::
        (⟨now1, s.dbMtime, s.livros⟩ : Archive) :: s.backups := by
  obtain ⟨p1, p2, p3, p4⟩ := freshBackupB_parts now1 s hf
  have hb1 : (backup_db now1 s).backups =
      (⟨now1, s.dbMtime, s.livros⟩ : Archive) :: s.backups := by
    rw [backup_db_backups now1 s hf]
    refine List.take_of_length_le ?_
    rw [List.length_cons]
    show s.backups.length + 1 ≤ MAX_BACKUPS_TO_KEEP
    omega
  have hmt : (backup_db now1 s).dbMtime = s.dbMtime := rfl
  have hlv : (backup_db now1 s).livros = s.livros := rfl
  have hf2 : freshBackupB now2 (backup_db now1 s) = true := by
    rw [freshBackupB, hb1, hmt, Bool.and_eq_true, Bool.and_eq_true, Bool.and_eq_true]
    refine ⟨⟨⟨?_, ?_⟩, ?_⟩, ?_⟩
    · rw [List.all_cons, Bool.and_eq_true]
      refine ⟨?_, h2⟩
      simp only [Bool.not_eq_true', beq_eq_false_iff_ne]
      exact hne
    · rw [List.all_cons, Bool.and_eq_true]
      exact ⟨by simp, p2⟩
    · rw [pairwiseB_cons, Bool.and_eq_true]
      exact ⟨p2, p3⟩
    · rw [pairwiseB_cons, Bool.and_eq_true]
      refine ⟨List.all_eq_true.mpr (fun b hb => ?_), p4⟩
      have := List.all_eq_true.mp p1 b hb
      simp only [Bool.not_eq_true', beq_eq_false_iff_ne] at this ⊢
      exact fun he => this he.symm
  rw [backup_db_backups now2 _ hf2, hb1, hmt, hlv]
  refine List.take_of_length_le ?_
  rw [List.length_cons, List.length_cons]
  show s.backups.length + 1 + 1 ≤ MAX_BACKUPS_TO_KEEP
  omega

theorem aoros_C5_witness :
    freshBackupB 100 sEx = true ∧
    sEx.backups.all (fun b => !(b.name == 101)) = true ∧
    (100 : Nat) ≠ 101 ∧ sEx.backups.length + 2 ≤ MAX_BACKUPS_TO_KEEP ∧
    (backup_db 101 (backup_db 100 sEx)).backups =
      (⟨101, sEx.dbMtime, sEx.livros⟩ : Archive) ::
        (⟨100, sEx.dbMtime, sEx.livros⟩ : Archive) :: sEx.backups :=
  ⟨by decide, by decide, by decide, by decide,
   aoros_C5 100 101 sEx (by decide) (by decide) (by decide) (by decide)⟩

/-- C6: `importar_de_csv` fails with the file-not-found error exactly when
the file is missing (an existing file never errors); a header-only file
(zero data rows) returns 0 with the state — including the backup directory —
untouched; a file with at least one data row creates exactly one new backup
archive holding the pre-import catalog (the directory afterwards is the old
one with that archive prepended, pruned to the retention count) and then
inserts one new record per data row (title and author trimmed, missing or
unparseable year/price stored as NULL by the validators inside `rowLivro`),
returning the number of rows inserted. -/
theorem aoros_C6 (now : Nat) (cy : Int) (s : DBState) (rows : List CsvRow)
    (hrows : rows ≠ []) (hf : freshBackupB now s = true) :
    importar_de_csv now cy none s = .error "Arquivo nao encontrado" ∧
    (∀ rows2 : List CsvRow, (importar_de_csv now cy (some rows2) s).toOption.isSome = true) ∧
    importar_de_csv now cy (some []) s = .ok (0, s) ∧
    (insertedRecords cy s.nextId rows).length = rows.length ∧
    importar_de_csv now cy (some rows) s =
      .ok (rows.length, ⟨s.livros ++ insertedRecords cy s.nextId rows,
        s.nextId + rows.length, now,
        ((⟨now, s.dbMtime, s.livros⟩ : Archive) :: s.backups).take MAX_BACKUPS_TO_KEEP⟩) := by
  refine ⟨rfl, ?_, rfl, insertedRecords_length cy rows s.nextId, ?_⟩
  · intro rows2
    cases rows2 with
    | nil => rfl
    | cons r rest =>
      rw [importar_spec now cy (r :: rest) s (by simp)]
      rfl
  · rw [importar_spec now cy rows s hrows, backup_db_backups now s hf]

theorem aoros_C6_witness :
    rowsEx ≠ [] ∧ freshBackupB 100 sEx = true ∧
    (importar_de_csv 100 2026 none sEx = .error "Arquivo nao encontrado" ∧
     (∀ rows2 : List CsvRow, (importar_de_csv 100 2026 (some rows2) sEx).toOption.isSome = true) ∧
     importar_de_csv 100 2026 (some []) sEx = .ok (0, sEx) ∧
     (insertedRecords 2026 sEx.nextId rowsEx).length = rowsEx.length ∧
     importar_de_csv 100 2026 (some rowsEx) sEx =
       .ok (rowsEx.length, ⟨sEx.livros ++ insertedRecords 2026 sEx.nextId rowsEx,
         sEx.nextId + rowsEx.length, 100,
         ((⟨100, sEx.dbMtime, sEx.livros⟩ : Archive) :: sEx.backups).take MAX_BACKUPS_TO_KEEP⟩)) :=
  ⟨by decide, by decide, aoros_C6 100 2026 sEx rowsEx (by decide) (by decide)⟩

/-- C7: exporting a catalog (whose records satisfy the store's reachability
invariant: trimmed title/author, year in the validator's range, price a
nonnegative decimal) and importing the exported rows into an empty target
catalog reproduces exactly the original multiset of (title, author, year,
price) tuples, ignoring id values. -/
theorem aoros_C7 (now : Nat) (cy : Int) (s t : DBState)
    (hexp : ∀ l ∈ s.livros, exportableLivro cy l = true) (ht : t.livros = []) :
    (importar_de_csv now cy (some (exportar_para_csv s)) t).toOption.map
        (fun pr => pr.2.livros.map tupla) = some ((listar_livros s).map tupla) ∧
    ((listar_livros s).map tupla).Perm (s.livros.map tupla) := by
  have hperm : ((listar_livros s).map tupla).Perm (s.livros.map tupla) :=
    (sortById_perm s.livros).map tupla
  refine ⟨?_, hperm⟩
  have hexp2 : ∀ l ∈ listar_livros s, exportableLivro cy l = true := fun l hl =>
    hexp l ((sortById_perm s.livros).mem_iff.mp hl)
  rw [exportar_para_csv]
  cases hcase : listar_livros s with
  | nil =>
    show some (t.livros.map tupla) = _
    rw [ht]
  | cons r rest =>
    rw [hcase] at hexp2
    rw [importar_spec now cy ((r :: rest).map exportRow) t (by simp)]
    show some ((t.livros ++ insertedRecords cy t.nextId ((r :: rest).map exportRow)).map tupla) = _
    rw [ht, List.nil_append, insertedRecords_export cy (r :: rest) t.nextId hexp2]

theorem aoros_C7_witness :
    (∀ l ∈ sEx.livros, exportableLivro 2026 l = true) ∧
    (⟨[], 1, 0, []⟩ : DBState).livros = [] ∧
    ((importar_de_csv 100 2026 (some (exportar_para_csv sEx)) ⟨[], 1, 0, []⟩).toOption.map
        (fun pr => pr.2.livros.map tupla) = some ((listar_livros sEx).map tupla) ∧
     ((listar_livros sEx).map tupla).Perm (sEx.livros.map tupla)) :=
  ⟨by decide, by decide, aoros_C7 100 2026 sEx ⟨[], 1, 0, []⟩ (by decide) (by decide)⟩

/-- C8 counterexample: importing a CSV row that has no title column persists
a record whose title is the empty string, violating the claimed non-empty
title invariant. -/
theorem aoros_C8_counterexample :
    (importar_de_csv 100 2026 (some [[("autor", "X")]]) sEmpty).toOption.map
      (fun pr => pr.2.livros.map (fun l => l.titulo)) = some [""] := by decide

/-- C8 amended: every operation given validated inputs preserves the store
invariant — ids below the AUTOINCREMENT counter and pairwise distinct, and
each record's year/price absent or within its validity range (the CSV import
validates year/price internally); non-emptiness of title and author is
preserved by insertion with non-empty trimmed inputs and by price update and
both deletes, but not by CSV import (the counterexample); and ids are
immutable: a surviving record with the id of a pre-existing record keeps its
title, author and year (only the price can change, via the price update). -/
theorem aoros_C8 (cy : Int) (t : Nat) (op : Op) (s : DBState) (ti au : String)
    (an : Option Int) (pr : Option Rat) (p : Option Rat) (i : Nat)
    (hinv : storeInvB cy s = true) (hop : opInputsOkB cy op = true)
    (htit : titlesOkB s = true) (hti : pyStrip ti ≠ "") (hau : pyStrip au ≠ "") :
    storeInvB cy (applyOp cy t op s) = true ∧
    titlesOkB (adicionar_livro t ti au an pr s).2 = true ∧
    titlesOkB (atualizar_preco_livro t i p s).2 = true ∧
    titlesOkB (remover_livro t i s).2 = true ∧
    titlesOkB (remover_todos_livros t s).2 = true ∧
    (∀ l ∈ s.livros, ∀ l2 ∈ (applyOp cy t op s).livros, l2.id = l.id →
      l2.titulo = l.titulo ∧ l2.autor = l.autor ∧ l2.ano = l.ano) := by
  refine ⟨?_, ?_, ?_, ?_, ?_, applyOp_id_immutable cy t op s hinv⟩
  · cases op with
    | adicionar ti2 au2 an2 pr2 =>
      simp only [opInputsOkB, Bool.and_eq_true] at hop
      exact storeInv_adicionar cy t ti2 au2 an2 pr2 s hinv hop.1 hop.2
    | atualizarPreco i2 p2 =>
      exact storeInv_atualizar cy t i2 p2 s hinv hop
    | remover i2 => exact storeInv_remover cy t i2 s hinv
    | removerTodos => exact storeInv_removerTodos cy t s hinv
    | fromCsv file => exact storeInv_import cy t file s hinv
  · rw [adicionar_state]
    show ((s.livros ++ [(⟨s.nextId, pyStrip ti, pyStrip au, an, pr⟩ : Livro)]).all
      (fun l => !(l.titulo == "") && !(l.autor == ""))) = true
    rw [List.all_append, Bool.and_eq_true]
    refine ⟨htit, ?_⟩
    show ((!(pyStrip ti == "") && !(pyStrip au == "")) && true) = true
    simp only [Bool.and_true, Bool.and_eq_true, Bool.not_eq_true', beq_eq_false_iff_ne]
    exact ⟨hti, hau⟩
  · cases hfind : s.livros.find? (fun l => l.id == i) with
    | none =>
      unfold atualizar_preco_livro
      rw [hfind]
      exact htit
    | some x =>
      unfold atualizar_preco_livro
      rw [hfind]
      show ((s.livros.map (fun l => if l.id == i then { l with preco := p } else l)).all
        (fun l => !(l.titulo == "") && !(l.autor == ""))) = true
      refine List.all_eq_true.mpr (fun l hl => ?_)
      obtain ⟨x2, hx2, rfl⟩ := List.mem_map.mp hl
      rw [updPreco_titulo, updPreco_autor]
      exact List.all_eq_true.mp htit x2 hx2
  · cases hfind : s.livros.find? (fun l => l.id == i) with
    | none =>
      unfold remover_livro
      rw [hfind]
      exact htit
    | some x =>
      unfold remover_livro
      rw [hfind]
      show ((s.livros.filter (fun l => !(l.id == i))).all
        (fun l => !(l.titulo == "") && !(l.autor == ""))) = true
      exact List.all_eq_true.mpr (fun l hl =>
        List.all_eq_true.mp htit l (List.mem_of_mem_filter hl))
  · by_cases he : s.livros = []
    · rw [removerTodos_empty t s he]
      exact htit
    · rw [removerTodos_nonempty t s he]
      rfl

theorem aoros_C8_witness :
    storeInvB 2026 sEx = true ∧
    opInputsOkB 2026 (Op.atualizarPreco 1 (some (mkRat 9 1))) = true ∧
    titlesOkB sEx = true ∧ pyStrip "X" ≠ "" ∧ pyStrip "Y" ≠ "" ∧
    (storeInvB 2026 (applyOp 2026 100 (Op.atualizarPreco 1 (some (mkRat 9 1))) sEx) = true ∧
     titlesOkB (adicionar_livro 100 "X" "Y" none none sEx).2 = true ∧
     titlesOkB (atualizar_preco_livro 100 1 (some (mkRat 9 1)) sEx).2 = true ∧
     titlesOkB (remover_livro 100 1 sEx).2 = true ∧
     titlesOkB (remover_todos_livros 100 sEx).2 = true ∧
     (∀ l ∈ sEx.livros,
        ∀ l2 ∈ (applyOp 2026 100 (Op.atualizarPreco 1 (some (mkRat 9 1))) sEx).livros,
        l2.id = l.id → l2.titulo = l.titulo ∧ l2.autor = l.autor ∧ l2.ano = l.ano)) :=
  ⟨by decide, by decide, by decide, by decide, by decide,
   aoros_C8 2026 100 (Op.atualizarPreco 1 (some (mkRat 9 1))) sEx "X" "Y" none none
     (some (mkRat 9 1)) 1 (by decide) (by decide) (by decide) (by decide) (by decide)⟩

/-- C9: `validar_ano` succeeds exactly on strings that parse as an integer
within `[1000, current_year + 1]` and `validar_preco` exactly on strings
that parse as a nonnegative real; both are total functions (they signal an
absent result instead of raising), and the spec's concrete examples hold. -/
theorem aoros_C9 :
    (∀ (cy : Int) (str : String) (y : Int),
       validar_ano cy str = some y ↔ pyInt str = some y ∧ (1000 ≤ y ∧ y ≤ cy + 1)) ∧
    (∀ (str : String) (p : Rat),
       validar_preco str = some p ↔ pyFloat str = some p ∧ 0 ≤ p) ∧
    validar_ano 2026 "2023" = some 2023 ∧
    validar_ano 2026 "abc" = none ∧
    validar_ano 2026 "50" = none ∧
    validar_preco "25.5" = some (mkRat 51 2) ∧
    validar_preco "-1" = none :=
  ⟨validar_ano_iff, validar_preco_iff, by decide, by decide, by decide, by decide, by decide⟩

/-- C10: searching by author with an empty or whitespace-only query wraps
the trimmed query in `%` wildcards, producing the pattern `%%` which matches
every author, so the search returns every record of the catalog ordered by
ascending id. -/
theorem aoros_C10 (q : String) (s : DBState) (hq : pyStrip q = "") :
    buscar_por_autor q s = listar_livros s ∧
    (listar_livros s).Perm s.livros ∧
    List.Pairwise (fun a b : Livro => a.id ≤ b.id) (listar_livros s) := by
  refine ⟨?_, sortById_perm s.livros, sortById_sorted s.livros⟩
  have hpat : ("%" ++ pyStrip q ++ "%" : String) = "%%" := by rw [hq]; rfl
  rw [buscar_por_autor, hpat]
  have hall : ∀ l ∈ s.livros, sqlLike "%%" l.autor = true := by
    intro l _
    rw [sqlLike, show ("%%" : String).data.map asciiLower = ['%', '%'] from by decide]
    exact likeMatch_percent2 _
  rw [List.filter_eq_self.mpr hall]
  rfl

theorem aoros_C10_witness :
    pyStrip "  " = "" ∧
    (buscar_por_autor "  " sEx = listar_livros sEx ∧
     (listar_livros sEx).Perm sEx.livros ∧
     List.Pairwise (fun a b : Livro => a.id ≤ b.id) (listar_livros sEx)) :=
  ⟨by decide, aoros_C10 "  " sEx (by decide)⟩
